import Mathlib

/-!
The static API generator of api-wilayah-indonesia (`cmd/app/main.go`)

A shallow embedding of the generator: the four CSV parsers, the three
grouping loops of `main`, `writeJSON`, and `main` itself as a function from
the input files and the initial file system to the outcome of the run.

Library behaviour the program relies on is modelled next to the code that
uses it:

* `strings.TrimSpace` trims the runes for which `unicode.IsSpace` holds;
* `csv.Reader` is modelled from its record layer upwards: a file is the
  sequence of records its line lexer yields (a field list, and a lexing error
  if the line is malformed); the `FieldsPerRecord` check of `Reader.Read` is
  part of the model;
* `json.MarshalIndent` is modelled on slices of flat string records; what a
  document holds is stated by reading its bytes back with a JSON reader
  (`decodeListing`) that is independent of the encoder;
* `filepath.Join` is modelled with its lexical `Clean` step (Unix separator);
* `os.WriteFile` succeeds or fails as the environment decides, call by call;
  a failed call may leave the file truncated or partly written.

Go strings are modelled by `String` (sequences of Unicode scalar values).
-/

namespace Wilayah

/-! ## Go values: slices and maps -/

/-- A Go slice value. `nil` is the zero value of a slice type (what a
`var results []T` declaration and a missed map lookup give); `elems l` is a
non-nil slice holding `l`. -/
inductive Slice (α : Type) where
  | nil : Slice α
  | elems : List α → Slice α
deriving DecidableEq, Repr

namespace Slice

/-- The elements of a slice, in order (`nil` has none). -/
def toList {α : Type} : Slice α → List α
  | nil => []
  | elems l => l

/-- Go's `len(s)`. -/
def len {α : Type} (s : Slice α) : Nat := s.toList.length

/-- Go's `append(s, x)`: a non-nil slice with `x` after the elements of `s`. -/
def append {α : Type} (s : Slice α) (x : α) : Slice α :=
  elems (s.toList ++ [x])

/-- Whether the slice is the nil slice. -/
def isNil {α : Type} : Slice α → Bool
  | nil => true
  | elems _ => false

end Slice

/-- A Go `map[string]V`: `none` for an absent key. -/
abbrev GoMap (ν : Type) := String → Option ν

namespace GoMap

/-- Go's `make(map[string]V)`: the empty map. -/
def make {ν : Type} : GoMap ν := fun _ => none

/-- Go's `m[k]` for a map of slices: the stored slice, or the zero value
(the nil slice) when the key is absent. -/
def get {α : Type} (m : GoMap (Slice α)) (k : String) : Slice α :=
  match m k with
  | some s => s
  | none => Slice.nil

/-- Go's `m[k] = v`. -/
def set {ν : Type} (m : GoMap ν) (k : String) (v : ν) : GoMap ν :=
  fun q => if q = k then some v else m q

/-- Whether `k` is a key of the map (`_, ok := m[k]`). -/
def hasKey {ν : Type} (m : GoMap ν) (k : String) : Bool := (m k).isSome

end GoMap

/-! ## Data model (`main.go` lines 14-35) -/

/-- The `Province` struct. -/
structure Province where
  ID : String
  Name : String
deriving DecidableEq, Repr

/-- The `Regency` struct. -/
structure Regency where
  ID : String
  ProvinceID : String
  Name : String
deriving DecidableEq, Repr

/-- The `District` struct. -/
structure District where
  ID : String
  RegencyID : String
  Name : String
deriving DecidableEq, Repr

/-- The `Village` struct. -/
structure Village where
  ID : String
  DistrictID : String
  Name : String
deriving DecidableEq, Repr

/-! ## `strings.TrimSpace` -/

/-- Go's `unicode.IsSpace`: the Latin-1 spaces `\t \n \v \f \r`, space,
U+0085, U+00A0, and beyond Latin-1 the code points with the `White_Space`
property. -/
def isSpace (r : Char) : Bool :=
  let n := r.toNat
  (9 ≤ n && n ≤ 13) || n == 32 || n == 0x85 || n == 0xA0 || n == 0x1680 ||
  (0x2000 ≤ n && n ≤ 0x200A) || n == 0x2028 || n == 0x2029 || n == 0x202F ||
  n == 0x205F || n == 0x3000

/-- Go's `strings.TrimSpace`: the string without its leading and trailing
white space. -/
def TrimSpace (s : String) : String :=
  ⟨(s.data.dropWhile isSpace).rdropWhile isSpace⟩

/-! ## The grouping loops of `main` (lines 43-56) -/

/-- The loop `for _, r := range regencies` building `regenciesByProvince`,
started from the map `m`. -/
def regenciesByProvinceFrom (m : GoMap (Slice Regency)) : List Regency → GoMap (Slice Regency)
  | [] => m
  | r :: rest =>
    regenciesByProvinceFrom (m.set r.ProvinceID ((m.get r.ProvinceID).append r)) rest

/-- The map `regenciesByProvince` of `main`. -/
def regenciesByProvince (regencies : List Regency) : GoMap (Slice Regency) :=
  regenciesByProvinceFrom GoMap.make regencies

/-- The loop `for _, d := range districts` building `districtsByRegency`,
started from the map `m`. -/
def districtsByRegencyFrom (m : GoMap (Slice District)) : List District → GoMap (Slice District)
  | [] => m
  | d :: rest =>
    districtsByRegencyFrom (m.set d.RegencyID ((m.get d.RegencyID).append d)) rest

/-- The map `districtsByRegency` of `main`. -/
def districtsByRegency (districts : List District) : GoMap (Slice District) :=
  districtsByRegencyFrom GoMap.make districts

/-- The loop `for _, v := range villages` building `villagesByDistrict`,
started from the map `m`. -/
def villagesByDistrictFrom (m : GoMap (Slice Village)) : List Village → GoMap (Slice Village)
  | [] => m
  | v :: rest =>
    villagesByDistrictFrom (m.set v.DistrictID ((m.get v.DistrictID).append v)) rest

/-- The map `villagesByDistrict` of `main`. -/
def villagesByDistrict (villages : List Village) : GoMap (Slice Village) :=
  villagesByDistrictFrom GoMap.make villages

/-- The common shape of the three grouping loops, for a record type with
parent reference `key`; the three loops above are its instances
(`regenciesByProvinceFrom_eq` and its siblings). -/
def indexFrom {α : Type} (key : α → String) (m : GoMap (Slice α)) : List α → GoMap (Slice α)
  | [] => m
  | x :: rest => indexFrom key (m.set (key x) ((m.get (key x)).append x)) rest

/-- Equality of results is decidable. -/
instance instDecidableEqExcept {ε α : Type} [DecidableEq ε] [DecidableEq α] :
    DecidableEq (Except ε α)
  | .ok a, .ok b =>
    if h : a = b then isTrue (by rw [h]) else isFalse (fun h2 => h (by cases h2; rfl))
  | .error a, .error b =>
    if h : a = b then isTrue (by rw [h]) else isFalse (fun h2 => h (by cases h2; rfl))
  | .ok _, .error _ => isFalse (fun h => by cases h)
  | .error _, .ok _ => isFalse (fun h => by cases h)

/-! ## `encoding/csv`: the record layer of `csv.Reader` -/

/-- What the line lexer of `csv.Reader` yields for one non-empty line of the
file: the fields it has split, and the lexing error if the line is malformed
(a bare or unterminated quote). Empty lines yield nothing: the reader skips
them. -/
structure RawRecord where
  fields : List String
  err : Option String
deriving DecidableEq, Repr

/-- A well-formed line with the given fields. -/
def RawRecord.row (fields : List String) : RawRecord := ⟨fields, none⟩

/-- A non-nil error of `Reader.Read`. -/
inductive ReadError where
  | EOF : ReadError
  | ParseError : String → ReadError
  | ErrFieldCount : ReadError
deriving DecidableEq, Repr

/-- The end of `Reader.readRecord`, after the line `raw` has been lexed:
with `FieldsPerRecord > 0` a well-formed record of another length is
`ErrFieldCount`; with `FieldsPerRecord = 0` (as `csv.NewReader` leaves it)
the field count of this record becomes `FieldsPerRecord`. Returns the
record or the error, and the new `FieldsPerRecord`. -/
def readRecord (FieldsPerRecord : Int) (raw : RawRecord) :
    Except ReadError (List String) × Int :=
  let err : Option ReadError := raw.err.map ReadError.ParseError
  if FieldsPerRecord > 0 then
    if (raw.fields.length : Int) ≠ FieldsPerRecord ∧ err = none then
      (.error .ErrFieldCount, FieldsPerRecord)
    else
      match err with
      | some e => (.error e, FieldsPerRecord)
      | none => (.ok raw.fields, FieldsPerRecord)
  else
    let n : Int := if FieldsPerRecord = 0 then raw.fields.length else FieldsPerRecord
    match err with
    | some e => (.error e, n)
    | none => (.ok raw.fields, n)

/-- A `csv.Reader`: its `FieldsPerRecord` setting and the lines not yet read. -/
structure Reader where
  FieldsPerRecord : Int
  input : List RawRecord
deriving DecidableEq, Repr

/-- Go's `csv.NewReader`: `FieldsPerRecord` is 0. -/
def NewReader (input : List RawRecord) : Reader := ⟨0, input⟩

/-- Go's `Reader.Read`: `io.EOF` at the end of the input, else the next
record or its error. -/
def Reader.Read (r : Reader) : Except ReadError (List String) × Reader :=
  match r.input with
  | [] => (.error .EOF, r)
  | raw :: rest =>
    let res := readRecord r.FieldsPerRecord raw
    (res.1, ⟨res.2, rest⟩)

/-! ## The parsers (`main.go` lines 102-238) -/

/-- How a run ends abnormally: the `log.Fatalf` calls of the program (exit
status 1) and the runtime panic of an index out of range (exit status 2). -/
inductive Fatal where
  | openFailed (file : String)
  | headerFailed (file : String) (e : ReadError)
  | recordFailed (file : String) (e : ReadError)
  | indexOutOfRange (index : Nat) (length : Nat)
  | writeFailed (filePath : String)
deriving DecidableEq, Repr

/-- The record loop of `readProvinces` (lines 115-131): the reader has
`FieldsPerRecord` set as given and `input` left to read; `results` is the
slice built so far. -/
def readProvincesLoop (FieldsPerRecord : Int) (results : Slice Province) :
    List RawRecord → Except Fatal (Slice Province)
  | [] => .ok results
  | raw :: rest =>
    match readRecord FieldsPerRecord raw with
    | (.error e, _) => .error (.recordFailed "provinces" e)
    | (.ok record, n) =>
      match record[0]?, record[1]? with
      | none, _ => .error (.indexOutOfRange 0 record.length)
      | some _, none => .error (.indexOutOfRange 1 record.length)
      | some c0, some c1 =>
        readProvincesLoop n (results.append ⟨TrimSpace c0, TrimSpace c1⟩) rest

/-- The function `readProvinces`: the file is `none` when it cannot be opened. -/
def readProvinces (file : Option (List RawRecord)) : Except Fatal (Slice Province) :=
  match file with
  | none => .error (.openFailed "provinces")
  | some input =>
    match (NewReader input).Read with
    | (.error e, _) => .error (.headerFailed "provinces" e)
    | (.ok _, r) => readProvincesLoop r.FieldsPerRecord .nil r.input

/-- The record loop of `readRegencies` (lines 148-166). -/
def readRegenciesLoop (FieldsPerRecord : Int) (results : Slice Regency) :
    List RawRecord → Except Fatal (Slice Regency)
  | [] => .ok results
  | raw :: rest =>
    match readRecord FieldsPerRecord raw with
    | (.error e, _) => .error (.recordFailed "regencies" e)
    | (.ok record, n) =>
      match record[0]?, record[1]?, record[2]? with
      | none, _, _ => .error (.indexOutOfRange 0 record.length)
      | some _, none, _ => .error (.indexOutOfRange 1 record.length)
      | some _, some _, none => .error (.indexOutOfRange 2 record.length)
      | some c0, some c1, some c2 =>
        readRegenciesLoop n (results.append ⟨TrimSpace c0, TrimSpace c1, TrimSpace c2⟩) rest

/-- The function `readRegencies`. -/
def readRegencies (file : Option (List RawRecord)) : Except Fatal (Slice Regency) :=
  match file with
  | none => .error (.openFailed "regencies")
  | some input =>
    match (NewReader input).Read with
    | (.error e, _) => .error (.headerFailed "regencies" e)
    | (.ok _, r) => readRegenciesLoop r.FieldsPerRecord .nil r.input

/-- The record loop of `readDistricts` (lines 183-201). -/
def readDistrictsLoop (FieldsPerRecord : Int) (results : Slice District) :
    List RawRecord → Except Fatal (Slice District)
  | [] => .ok results
  | raw :: rest =>
    match readRecord FieldsPerRecord raw with
    | (.error e, _) => .error (.recordFailed "districts" e)
    | (.ok record, n) =>
      match record[0]?, record[1]?, record[2]? with
      | none, _, _ => .error (.indexOutOfRange 0 record.length)
      | some _, none, _ => .error (.indexOutOfRange 1 record.length)
      | some _, some _, none => .error (.indexOutOfRange 2 record.length)
      | some c0, some c1, some c2 =>
        readDistrictsLoop n (results.append ⟨TrimSpace c0, TrimSpace c1, TrimSpace c2⟩) rest

/-- The function `readDistricts`. -/
def readDistricts (file : Option (List RawRecord)) : Except Fatal (Slice District) :=
  match file with
  | none => .error (.openFailed "districts")
  | some input =>
    match (NewReader input).Read with
    | (.error e, _) => .error (.headerFailed "districts" e)
    | (.ok _, r) => readDistrictsLoop r.FieldsPerRecord .nil r.input

/-- The record loop of `readVillages` (lines 218-236). -/
def readVillagesLoop (FieldsPerRecord : Int) (results : Slice Village) :
    List RawRecord → Except Fatal (Slice Village)
  | [] => .ok results
  | raw :: rest =>
    match readRecord FieldsPerRecord raw with
    | (.error e, _) => .error (.recordFailed "villages" e)
    | (.ok record, n) =>
      match record[0]?, record[1]?, record[2]? with
      | none, _, _ => .error (.indexOutOfRange 0 record.length)
      | some _, none, _ => .error (.indexOutOfRange 1 record.length)
      | some _, some _, none => .error (.indexOutOfRange 2 record.length)
      | some c0, some c1, some c2 =>
        readVillagesLoop n (results.append ⟨TrimSpace c0, TrimSpace c1, TrimSpace c2⟩) rest

/-- The function `readVillages`. -/
def readVillages (file : Option (List RawRecord)) : Except Fatal (Slice Village) :=
  match file with
  | none => .error (.openFailed "villages")
  | some input =>
    match (NewReader input).Read with
    | (.error e, _) => .error (.headerFailed "villages" e)
    | (.ok _, r) => readVillagesLoop r.FieldsPerRecord .nil r.input

/-! ### The common shape of the four parsers (used in the proofs) -/

/-- The body of the record loop of `readProvinces` after `r.Read()`: the two
indexings (each a runtime panic when out of range) and the record built. -/
def buildProvince (record : List String) : Except Fatal Province :=
  match record[0]?, record[1]? with
  | none, _ => .error (.indexOutOfRange 0 record.length)
  | some _, none => .error (.indexOutOfRange 1 record.length)
  | some c0, some c1 => .ok ⟨TrimSpace c0, TrimSpace c1⟩

/-- The body of the record loop of a three-column parser after `r.Read()`,
for the struct with constructor `mk`. -/
def buildThree {α : Type} (mk : String → String → String → α) (record : List String) :
    Except Fatal α :=
  match record[0]?, record[1]?, record[2]? with
  | none, _, _ => .error (.indexOutOfRange 0 record.length)
  | some _, none, _ => .error (.indexOutOfRange 1 record.length)
  | some _, some _, none => .error (.indexOutOfRange 2 record.length)
  | some c0, some c1, some c2 => .ok (mk (TrimSpace c0) (TrimSpace c1) (TrimSpace c2))

/-- The record loop of a parser whose loop body is `build`; the four record
loops are its instances (`readProvincesLoop_eq` and its siblings). -/
def readLoop {α : Type} (name : String) (build : List String → Except Fatal α)
    (FieldsPerRecord : Int) (results : Slice α) : List RawRecord → Except Fatal (Slice α)
  | [] => .ok results
  | raw :: rest =>
    match readRecord FieldsPerRecord raw with
    | (.error e, _) => .error (.recordFailed name e)
    | (.ok record, n) =>
      match build record with
      | .error e => .error e
      | .ok x => readLoop name build n (results.append x) rest

/-- A parser whose loop body is `build`; the four parsers are its instances. -/
def readCsv {α : Type} (name : String) (build : List String → Except Fatal α)
    (file : Option (List RawRecord)) : Except Fatal (Slice α) :=
  match file with
  | none => .error (.openFailed name)
  | some input =>
    match (NewReader input).Read with
    | (.error e, _) => .error (.headerFailed name e)
    | (.ok _, r) => readLoop name build r.FieldsPerRecord .nil r.input

/-! ### What the claims say of a parsed row -/

/-- The record `p` is built from the well-formed data row `raw`: id from
column 0 and name from column 1, each stripped of white space. -/
def ProvinceOfRow (raw : RawRecord) (p : Province) : Prop :=
  raw.err = none ∧ ∃ c0 c1, raw.fields[0]? = some c0 ∧ raw.fields[1]? = some c1 ∧
    p = ⟨TrimSpace c0, TrimSpace c1⟩

/-- The record `x` (built by `mk`) comes from the well-formed data row `raw`:
id from column 0, parent reference from column 1 and name from column 2, each
stripped of white space. -/
def ThreeOfRow {α : Type} (mk : String → String → String → α) (raw : RawRecord) (x : α) :
    Prop :=
  raw.err = none ∧ ∃ c0 c1 c2, raw.fields[0]? = some c0 ∧ raw.fields[1]? = some c1 ∧
    raw.fields[2]? = some c2 ∧ x = mk (TrimSpace c0) (TrimSpace c1) (TrimSpace c2)

/-- The string `t` is `raw` without a white-space margin: `raw` is `t` between
two runs of white space, and `t` neither starts nor ends with white space. -/
def IsTrimOf (raw t : String) : Prop :=
  (∃ pre post : List Char, raw.data = pre ++ t.data ++ post ∧
    (∀ c ∈ pre, isSpace c = true) ∧ (∀ c ∈ post, isSpace c = true)) ∧
  (∀ c, t.data.head? = some c → isSpace c = false) ∧
  (∀ c, t.data.getLast? = some c → isSpace c = false)

/-- The record field `t` is the raw column `raw` trimmed: it is what
`TrimSpace` gives, it is `raw` without its white-space margin, and trimming it
again changes nothing. -/
def TrimmedField (raw t : String) : Prop :=
  t = TrimSpace raw ∧ IsTrimOf raw t ∧ TrimSpace t = t

/-! ## `encoding/json`: `json.MarshalIndent` on slices of records -/

/-- The JSON object of a struct value: the keys of its `json:"..."` tags with
the field values, in declaration order. -/
class JSONStruct (α : Type) where
  jsonFields : α → List (String × String)

instance instJSONStructProvince : JSONStruct Province where
  jsonFields p := [("id", p.ID), ("name", p.Name)]

instance instJSONStructRegency : JSONStruct Regency where
  jsonFields r := [("id", r.ID), ("province_id", r.ProvinceID), ("name", r.Name)]

instance instJSONStructDistrict : JSONStruct District where
  jsonFields d := [("id", d.ID), ("regency_id", d.RegencyID), ("name", d.Name)]

instance instJSONStructVillage : JSONStruct Village where
  jsonFields v := [("id", v.ID), ("district_id", v.DistrictID), ("name", v.Name)]

/-- The lower-case hexadecimal digit of `n < 16`. -/
def hexDigit (n : Nat) : Char := "0123456789abcdef".data.getD n '0'

/-- The backslash. -/
def backslash : Char := Char.ofNat 0x5C

/-- The double quote. -/
def dquote : Char := Char.ofNat 0x22

/-- How the encoder writes one rune inside a JSON string (HTML escaping on,
as `json.Marshal` has it): the quote and the backslash are escaped with a
backslash, `\b \f \n \r \t` have their short forms, the other control
characters and `< > &` are written `\u00XX`, U+2028 and U+2029 are written as
their own `\u` escapes, every other rune stands for itself. -/
def escapeRune (c : Char) : List Char :=
  let n := c.toNat
  if n = 0x22 ∨ n = 0x5C then [backslash, c]
  else if n = 8 then [backslash, 'b']
  else if n = 12 then [backslash, 'f']
  else if n = 10 then [backslash, 'n']
  else if n = 13 then [backslash, 'r']
  else if n = 9 then [backslash, 't']
  else if n < 0x20 ∨ n = 0x3C ∨ n = 0x3E ∨ n = 0x26 then
    [backslash, 'u', '0', '0', hexDigit (n / 16), hexDigit (n % 16)]
  else if n = 0x2028 then [backslash, 'u', '2', '0', '2', '8']
  else if n = 0x2029 then [backslash, 'u', '2', '0', '2', '9']
  else [c]

/-- A Go string as a JSON string literal. -/
def quoteString (s : String) : String :=
  ⟨dquote :: (s.data.flatMap escapeRune ++ [dquote])⟩

/-- The line break of the indenting encoder at nesting depth `depth`. -/
def newline (pfx indent : String) (depth : Nat) : String :=
  "\n" ++ pfx ++ String.join (List.replicate depth indent)

/-- One member as the indenting encoder writes it. -/
def marshalMember (kv : String × String) : String :=
  quoteString kv.1 ++ ": " ++ quoteString kv.2

/-- One struct value as an indented JSON object at nesting depth `depth`. -/
def marshalStruct {α : Type} [JSONStruct α] (pfx indent : String) (depth : Nat) (x : α) :
    String :=
  match JSONStruct.jsonFields x with
  | [] => "\x7b\x7d"
  | fs =>
    "\x7b" ++ newline pfx indent (depth + 1) ++
    String.intercalate ("," ++ newline pfx indent (depth + 1))
      (fs.map marshalMember) ++
    newline pfx indent depth ++ "\x7d"

/-- Go's `json.MarshalIndent(data, pfx, indent)` for a slice of records: the
nil slice is `null`, an empty non-nil slice is `[]`, any other slice is an
array with one indented object per element. Marshalling these types never
fails. -/
def MarshalIndent {α : Type} [JSONStruct α] (data : Slice α) (pfx indent : String) : String :=
  match data with
  | .nil => "null"
  | .elems [] => "[]"
  | .elems l =>
    "[" ++ newline pfx indent 1 ++
    String.intercalate ("," ++ newline pfx indent 1) (l.map (marshalStruct pfx indent 1)) ++
    newline pfx indent 0 ++ "]"

/-! ## `path/filepath`: `filepath.Join` -/

/-- The elements of a path between its separators `/`. -/
def splitSlash : List Char → List (List Char)
  | [] => [[]]
  | c :: cs =>
    if c = '/' then [] :: splitSlash cs
    else
      match splitSlash cs with
      | [] => [[c]]
      | x :: xs => (c :: x) :: xs

/-- One step of `filepath.Clean` on the elements kept so far (last one
first): an empty element and `.` are dropped; `..` removes the element
before it when there is one to remove, is kept in front of a path that is
not rooted, and is dropped at the root; any other element is kept. -/
def cleanElem (rooted : Bool) (out : List (List Char)) (e : List Char) : List (List Char) :=
  if e = [] ∨ e = ['.'] then out
  else if e = ['.', '.'] then
    match out with
    | [] => if rooted then [] else [e]
    | top :: below => if top = ['.', '.'] then e :: out else below
  else e :: out

/-- Go's `filepath.Clean` (Unix): the shortest path lexically equivalent to
`path`. -/
def Clean (path : String) : String :=
  if path.data = [] then "."
  else
    let rooted : Bool := path.data.head? = some '/'
    let out := ((splitSlash path.data).foldl (cleanElem rooted) []).reverse
    if rooted then ⟨'/' :: List.intercalate ['/'] out⟩
    else if out = [] then "."
    else ⟨List.intercalate ['/'] out⟩

/-- Go's `filepath.Join`: the elements from the first non-empty one on,
joined with `/` and cleaned; the empty string if all are empty. -/
def Join : List String → String
  | [] => ""
  | e :: rest => if e = "" then Join rest else Clean (String.intercalate "/" (e :: rest))

/-! ## The run: `writeJSON`, `createOutputDirs`, `main` -/

/-- The files of the file system: the content of each path that is a file. -/
abbrev FS := String → Option String

/-- What one call of `os.WriteFile` does: it succeeds, or it fails and leaves
at the path what `left` says (no file, the old bytes, or the truncated or
partly written file). -/
inductive WriteOutcome where
  | ok : WriteOutcome
  | failed (left : Option String) : WriteOutcome

/-- What a run meets in its environment: the four input files as
`csv.Reader` lexes them (`none` when the file cannot be opened), and what
each `os.WriteFile` call does, given the files at the time of the call, the
path and the bytes. -/
structure Env where
  provinces : Option (List RawRecord)
  regencies : Option (List RawRecord)
  districts : Option (List RawRecord)
  villages : Option (List RawRecord)
  osWriteFile : FS → String → String → WriteOutcome

/-- The state a run changes: the files, the successful `os.WriteFile` calls
so far (path and bytes, in order), and the lines printed. -/
structure World where
  files : FS
  written : List (String × String)
  stdout : List String

/-- Go's `os.WriteFile(filePath, bytes, 0644)` where it succeeds: the file
holds `bytes`, whatever it held before. -/
def WriteFile (filePath bytes : String) (w : World) : World :=
  { w with
    files := fun q => if q = filePath then some bytes else w.files q
    written := w.written ++ [(filePath, bytes)] }

/-- The function `writeJSON` (lines 90-100): the world after the call, and
the fatal error if the write fails. The marshalling error branch cannot be
taken for slices of string records. A failed write is not logged and leaves
at the path what the environment says. -/
def writeJSON {α : Type} [JSONStruct α] (env : Env) (filePath : String) (data : Slice α)
    (w : World) : World × Option Fatal :=
  let bytes := MarshalIndent data "" "  "
  match env.osWriteFile w.files filePath bytes with
  | .failed left =>
    ({ w with files := fun q => if q = filePath then left else w.files q },
      some (.writeFailed filePath))
  | .ok => (WriteFile filePath bytes w, none)

/-- The function `createOutputDirs` (lines 83-88): four `os.MkdirAll` calls
whose errors are dropped. Directories are not part of the modelled state. -/
def createOutputDirs (w : World) : World := w

/-- The loop of lines 62-66: one `regencies/<id>.json` per province. -/
def writeRegencies (env : Env) (regenciesByProvince : GoMap (Slice Regency)) :
    List Province → World → World × Option Fatal
  | [], w => (w, none)
  | prov :: rest, w =>
    let provinceRegencies := regenciesByProvince.get prov.ID
    let outputFile := Join ["static", "api", "regencies", prov.ID ++ ".json"]
    match writeJSON env outputFile provinceRegencies w with
    | (w1, some e) => (w1, some e)
    | (w1, none) => writeRegencies env regenciesByProvince rest w1

/-- The loop of lines 68-72: one `districts/<id>.json` per regency. -/
def writeDistricts (env : Env) (districtsByRegency : GoMap (Slice District)) :
    List Regency → World → World × Option Fatal
  | [], w => (w, none)
  | r :: rest, w =>
    let regencyDistricts := districtsByRegency.get r.ID
    let outputFile := Join ["static", "api", "districts", r.ID ++ ".json"]
    match writeJSON env outputFile regencyDistricts w with
    | (w1, some e) => (w1, some e)
    | (w1, none) => writeDistricts env districtsByRegency rest w1

/-- The loop of lines 74-78: one `villages/<id>.json` per district. -/
def writeVillages (env : Env) (villagesByDistrict : GoMap (Slice Village)) :
    List District → World → World × Option Fatal
  | [], w => (w, none)
  | d :: rest, w =>
    let districtVillages := villagesByDistrict.get d.ID
    let outputFile := Join ["static", "api", "villages", d.ID ++ ".json"]
    match writeJSON env outputFile districtVillages w with
    | (w1, some e) => (w1, some e)
    | (w1, none) => writeVillages env villagesByDistrict rest w1

/-- How a run ends. -/
inductive Exit where
  | success : Exit
  | fatal : Fatal → Exit
deriving DecidableEq, Repr

/-- The outcome of a run: how it ended and the world it left. -/
structure Outcome where
  exit : Exit
  world : World

/-- The function `main` (lines 37-81), run in the environment `env` on the
file system `fs`. -/
def main (env : Env) (fs : FS) : Outcome :=
  let w0 : World := ⟨fs, [], []⟩
  match readProvinces env.provinces with
  | .error e => ⟨.fatal e, w0⟩
  | .ok provinces =>
  match readRegencies env.regencies with
  | .error e => ⟨.fatal e, w0⟩
  | .ok regencies =>
  match readDistricts env.districts with
  | .error e => ⟨.fatal e, w0⟩
  | .ok districts =>
  match readVillages env.villages with
  | .error e => ⟨.fatal e, w0⟩
  | .ok villages =>
  let regenciesByProvince := regenciesByProvince regencies.toList
  let districtsByRegency := districtsByRegency districts.toList
  let villagesByDistrict := villagesByDistrict villages.toList
  let w1 := createOutputDirs w0
  match writeJSON env (Join ["static", "api", "provinces.json"]) provinces w1 with
  | (w2, some e) => ⟨.fatal e, w2⟩
  | (w2, none) =>
  match writeRegencies env regenciesByProvince provinces.toList w2 with
  | (w3, some e) => ⟨.fatal e, w3⟩
  | (w3, none) =>
  match writeDistricts env districtsByRegency regencies.toList w3 with
  | (w4, some e) => ⟨.fatal e, w4⟩
  | (w4, none) =>
  match writeVillages env villagesByDistrict districts.toList w4 with
  | (w5, some e) => ⟨.fatal e, w5⟩
  | (w5, none) =>
  ⟨.success, { w5 with stdout := w5.stdout ++ ["All JSON files generated successfully!"] }⟩

/-! ### The effect of a run on the world (used in the proofs and the claims) -/

/-- The files after the writes `ws` (path and bytes, in order), each
replacing what its path held. -/
def writeAll (ws : List (String × String)) (fs : FS) : FS :=
  ws.foldl (fun f d => fun q => if q = d.1 then some d.2 else f q) fs

/-- The world after the successful writes `ws`. -/
def World.extend (w : World) (ws : List (String × String)) : World :=
  ⟨writeAll ws w.files, w.written ++ ws, w.stdout⟩

/-- The common shape of the three emitting loops of `main`: for each parent
`x`, in order, `writeJSON` of the group `idx[key x]` to
`static/api/<dir>/<key x>.json`; the three loops are its instances. -/
def writeEach {α β : Type} [JSONStruct β] (env : Env) (dir : String) (key : α → String)
    (idx : GoMap (Slice β)) : List α → World → World × Option Fatal
  | [], w => (w, none)
  | x :: rest, w =>
    match writeJSON env (Join ["static", "api", dir, key x ++ ".json"]) (idx.get (key x)) w with
    | (w1, some e) => (w1, some e)
    | (w1, none) => writeEach env dir key idx rest w1

/-- The documents a run writes when the four files have parsed to the given
slices and every write succeeds, in the order of the writes. -/
def documents (provinces : Slice Province) (regencies : Slice Regency)
    (districts : Slice District) (villages : Slice Village) : List (String × String) :=
  (Join ["static", "api", "provinces.json"], MarshalIndent provinces "" "  ") ::
  (provinces.toList.map (fun p => (Join ["static", "api", "regencies", p.ID ++ ".json"],
      MarshalIndent ((regenciesByProvince regencies.toList).get p.ID) "" "  ")) ++
    regencies.toList.map (fun r => (Join ["static", "api", "districts", r.ID ++ ".json"],
      MarshalIndent ((districtsByRegency districts.toList).get r.ID) "" "  ")) ++
    districts.toList.map (fun d => (Join ["static", "api", "villages", d.ID ++ ".json"],
      MarshalIndent ((villagesByDistrict villages.toList).get d.ID) "" "  ")))

/-! ## Reading a listing document back (RFC 8259) -/

/-- The value of a hexadecimal digit. -/
def hexValue (c : Char) : Option Nat :=
  let n := c.toNat
  if 48 ≤ n ∧ n ≤ 57 then some (n - 48)
  else if 97 ≤ n ∧ n ≤ 102 then some (n - 87)
  else if 65 ≤ n ∧ n ≤ 70 then some (n - 55)
  else none

/-- The character a two-character JSON escape stands for. -/
def unescape (e : Char) : Option Char :=
  if e = dquote then some dquote
  else if e = backslash then some backslash
  else if e = '/' then some '/'
  else if e = 'b' then some (Char.ofNat 8)
  else if e = 'f' then some (Char.ofNat 12)
  else if e = 'n' then some (Char.ofNat 10)
  else if e = 'r' then some (Char.ofNat 13)
  else if e = 't' then some (Char.ofNat 9)
  else none

/-- The character of the escape `\uXXXX` with the four given digits; a
surrogate half is not read. -/
def unicodeEscape (a b c d : Char) : Option Char :=
  match hexValue a, hexValue b, hexValue c, hexValue d with
  | some x, some y, some z, some w =>
    let n := ((x * 16 + y) * 16 + z) * 16 + w
    if 0xD800 ≤ n ∧ n ≤ 0xDFFF then none else some (Char.ofNat n)
  | _, _, _, _ => none

/-- Reads a JSON string from after its opening quote: the characters it
denotes and the input after its closing quote. -/
def readStringBody : List Char → Option (List Char × List Char)
  | [] => none
  | c :: rest =>
    if c = dquote then some ([], rest)
    else if c = backslash then
      match rest with
      | [] => none
      | e :: rest2 =>
        if e = 'u' then
          match rest2 with
          | a :: b :: c2 :: d :: rest3 =>
            match unicodeEscape a b c2 d, readStringBody rest3 with
            | some ch, some (s, r) => some (ch :: s, r)
            | _, _ => none
          | _ => none
        else
          match unescape e, readStringBody rest2 with
          | some ch, some (s, r) => some (ch :: s, r)
          | _, _ => none
    else if c.toNat < 0x20 then none
    else
      match readStringBody rest with
      | some (s, r) => some (c :: s, r)
      | none => none

/-- Reads a JSON string: the string it denotes and the input after it. -/
def readString : List Char → Option (String × List Char)
  | [] => none
  | c :: rest =>
    if c = dquote then
      match readStringBody rest with
      | some (s, r) => some (⟨s⟩, r)
      | none => none
    else none

/-- JSON white space: space, tab, line feed, carriage return. -/
def isJSONSpace (c : Char) : Bool :=
  c = ' ' || c = Char.ofNat 9 || c = Char.ofNat 10 || c = Char.ofNat 13

/-- The input without its leading JSON white space. -/
def skipSpace (cs : List Char) : List Char := cs.dropWhile isJSONSpace

/-- The opening brace. -/
def lbrace : Char := Char.ofNat 0x7B

/-- The closing brace. -/
def rbrace : Char := Char.ofNat 0x7D

/-- Reads the members of a JSON object whose values are strings, from the
first member to the closing brace: the members in order and the input after
the brace. The fuel bounds the number of members. -/
def readMembers : Nat → List Char → Option (List (String × String) × List Char)
  | 0, _ => none
  | fuel + 1, cs =>
    match readString cs with
    | none => none
    | some (k, r1) =>
      match skipSpace r1 with
      | [] => none
      | c :: r2 =>
        if c = ':' then
          match readString (skipSpace r2) with
          | none => none
          | some (v, r3) =>
            match skipSpace r3 with
            | [] => none
            | d :: r4 =>
              if d = ',' then
                match readMembers fuel (skipSpace r4) with
                | some (ms, r5) => some ((k, v) :: ms, r5)
                | none => none
              else if d = rbrace then some ([(k, v)], r4)
              else none
        else none

/-- Reads a JSON object whose values are strings: its members in order and
the input after it. -/
def readObject (fuel : Nat) : List Char → Option (List (String × String) × List Char)
  | [] => none
  | c :: r =>
    if c = lbrace then
      if (skipSpace r).head? = some rbrace then some ([], (skipSpace r).tail)
      else readMembers fuel (skipSpace r)
    else none

/-- Reads the elements of a JSON array of such objects, from the first
element to the closing bracket. -/
def readElements (fuelObject : Nat) : Nat → List Char →
    Option (List (List (String × String)) × List Char)
  | 0, _ => none
  | fuel + 1, cs =>
    match readObject fuelObject cs with
    | none => none
    | some (o, r1) =>
      match skipSpace r1 with
      | [] => none
      | d :: r2 =>
        if d = ',' then
          match readElements fuelObject fuel (skipSpace r2) with
          | some (os, r3) => some (o :: os, r3)
          | none => none
        else if d = ']' then some ([o], r2)
        else none

/-- Reads a document as a JSON array of objects with string values: the
members of each element, in order; `none` if the document is anything else
(`null`, say). The fuel is the length of the document, which the number of
elements of an array and of members of an object never exceeds. -/
def decodeListing (bytes : String) : Option (List (List (String × String))) :=
  match skipSpace bytes.data with
  | [] => none
  | c :: r =>
    if c = '[' then
      if (skipSpace r).head? = some ']' then
        (if skipSpace (skipSpace r).tail = [] then some [] else none)
      else
        match readElements bytes.data.length bytes.data.length (skipSpace r) with
        | some (os, r3) => if skipSpace r3 = [] then some os else none
        | none => none
    else none

/-! ### What the claims say of a listing document -/

/-- The path `static/api/<dir>/<id>.json`. -/
def listingPath (dir id : String) : String :=
  "static/api/" ++ dir ++ "/" ++ id ++ ".json"

/-- The regencies whose `province_id` is `id`, in parse order. -/
def regenciesOf (regencies : List Regency) (id : String) : List Regency :=
  regencies.filter (fun r => decide (r.ProvinceID = id))

/-- The districts whose `regency_id` is `id`, in parse order. -/
def districtsOf (districts : List District) (id : String) : List District :=
  districts.filter (fun d => decide (d.RegencyID = id))

/-- The villages whose `district_id` is `id`, in parse order. -/
def villagesOf (villages : List Village) (id : String) : List Village :=
  villages.filter (fun v => decide (v.DistrictID = id))

/-- The document `bytes` is a JSON array holding exactly the records `xs`, in
order: read as JSON it is an array with one object per record, whose members
are the record's fields under their documented names. -/
def IsListingOf {α : Type} [JSONStruct α] (bytes : String) (xs : List α) : Prop :=
  decodeListing bytes = some (xs.map JSONStruct.jsonFields)

/-- The record with the members `fields` appears in the document `bytes`:
read as JSON the document is an array and one of its elements has exactly
these members. -/
def Mentions (bytes : String) (fields : List (String × String)) : Prop :=
  ∃ rows, decodeListing bytes = some rows ∧ fields ∈ rows

/-- The input files of the end-to-end scenario of the specification:
provinces (11, Aceh) and (12, Sumatera Utara), regency (1101, 11, Simeulue),
no districts and no villages; every write succeeds. -/
def scenario : Env where
  provinces := some [.row ["id", "name"], .row ["11", "Aceh"], .row ["12", "Sumatera Utara"]]
  regencies := some [.row ["id", "province_id", "name"], .row ["1101", "11", "Simeulue"]]
  districts := some [.row ["id", "regency_id", "name"]]
  villages := some [.row ["id", "district_id", "name"]]
  osWriteFile := fun _ _ _ => .ok

/-- The scenario with a two-column data row in `districts.csv`. -/
def shortRowScenario : Env :=
  { scenario with
    districts := some [.row ["id", "regency_id", "name"], .row ["110101", "1101"]] }

/-- The empty file system. -/
def emptyFS : FS := fun _ => none

/-- Input in which a regency identifier is a relative path: province
(11, Aceh), regency (../regencies/11, 11, Simeulue) and district
(110101, ../regencies/11, Teupah Selatan); every write succeeds. -/
def pathIdScenario : Env where
  provinces := some [.row ["id", "name"], .row ["11", "Aceh"]]
  regencies := some [.row ["id", "province_id", "name"],
    .row ["../regencies/11", "11", "Simeulue"]]
  districts := some [.row ["id", "regency_id", "name"],
    .row ["110101", "../regencies/11", "Teupah Selatan"]]
  villages := some [.row ["id", "district_id", "name"]]
  osWriteFile := fun _ _ _ => .ok

/-! ## The grouping index -/

theorem regenciesByProvinceFrom_eq (m : GoMap (Slice Regency)) (xs : List Regency) :
    regenciesByProvinceFrom m xs = indexFrom Regency.ProvinceID m xs := by
  induction xs generalizing m with
  | nil => rfl
  | cons x rest ih => simp only [regenciesByProvinceFrom, indexFrom, ih]

theorem districtsByRegencyFrom_eq (m : GoMap (Slice District)) (xs : List District) :
    districtsByRegencyFrom m xs = indexFrom District.RegencyID m xs := by
  induction xs generalizing m with
  | nil => rfl
  | cons x rest ih => simp only [districtsByRegencyFrom, indexFrom, ih]

theorem villagesByDistrictFrom_eq (m : GoMap (Slice Village)) (xs : List Village) :
    villagesByDistrictFrom m xs = indexFrom Village.DistrictID m xs := by
  induction xs generalizing m with
  | nil => rfl
  | cons x rest ih => simp only [villagesByDistrictFrom, indexFrom, ih]

theorem GoMap.get_set {α : Type} (m : GoMap (Slice α)) (k q : String) (v : Slice α) :
    (m.set k v).get q = if q = k then v else m.get q := by
  unfold GoMap.get GoMap.set
  by_cases h : q = k <;> simp [h]

theorem Slice.toList_append {α : Type} (s : Slice α) (x : α) :
    (s.append x).toList = s.toList ++ [x] := rfl

/-- After the loop, the group of `K` is the group it had before followed by
the records of the list that refer to `K`, in list order. -/
theorem indexFrom_get {α : Type} (key : α → String) (xs : List α) (m : GoMap (Slice α))
    (K : String) :
    ((indexFrom key m xs).get K).toList
      = (m.get K).toList ++ xs.filter (fun x => decide (key x = K)) := by
  induction xs generalizing m with
  | nil => simp [indexFrom]
  | cons x rest ih =>
    rw [indexFrom, ih, GoMap.get_set]
    by_cases h : key x = K
    · have h2 : K = key x := h.symm
      subst h2
      simp [Slice.toList_append]
    · have h2 : ¬ K = key x := fun e => h e.symm
      simp [h, h2]

/-- After the loop, the keys are the keys from before and the parent
references of the list. -/
theorem indexFrom_hasKey {α : Type} (key : α → String) (xs : List α) (m : GoMap (Slice α))
    (K : String) :
    (indexFrom key m xs).hasKey K = true ↔ (m.hasKey K = true ∨ ∃ x ∈ xs, key x = K) := by
  induction xs generalizing m with
  | nil => simp [indexFrom]
  | cons x rest ih =>
    rw [indexFrom, ih]
    have hk : (m.set (key x) ((m.get (key x)).append x)).hasKey K = true
        ↔ (K = key x ∨ m.hasKey K = true) := by
      unfold GoMap.hasKey GoMap.set
      by_cases h : K = key x <;> simp [h]
    rw [hk]
    constructor
    · rintro (h | h)
      · rcases h with h | h
        · exact Or.inr ⟨x, List.mem_cons_self _ _, h.symm⟩
        · exact Or.inl h
      · obtain ⟨y, hy, e⟩ := h
        exact Or.inr ⟨y, List.mem_cons_of_mem _ hy, e⟩
    · rintro (h | ⟨y, hy, e⟩)
      · exact Or.inl (Or.inr h)
      · rcases List.mem_cons.mp hy with rfl | hy
        · exact Or.inl (Or.inl e.symm)
        · exact Or.inr ⟨y, hy, e⟩

/-- The loop stores no empty group if the map it starts from has none. -/
theorem indexFrom_stored_ne_nil {α : Type} (key : α → String) (xs : List α)
    (m : GoMap (Slice α)) (hm : ∀ K s, m K = some s → s.toList ≠ [])
    (K : String) (s : Slice α) (h : indexFrom key m xs K = some s) : s.toList ≠ [] := by
  induction xs generalizing m with
  | nil => exact hm K s h
  | cons x rest ih =>
    rw [indexFrom] at h
    refine ih _ ?_ h
    intro K2 s2 h2
    unfold GoMap.set at h2
    by_cases e : K2 = key x
    · simp only [e, if_true, Option.some.injEq] at h2
      rw [← h2, Slice.toList_append]
      simp
    · simp only [e, if_false] at h2
      exact hm K2 s2 h2

theorem index_get {α : Type} (key : α → String) (xs : List α) (K : String) :
    ((indexFrom key GoMap.make xs).get K).toList = xs.filter (fun x => decide (key x = K)) := by
  rw [indexFrom_get]
  simp [GoMap.get, GoMap.make, Slice.toList]

theorem index_hasKey {α : Type} (key : α → String) (xs : List α) (K : String) :
    (indexFrom key GoMap.make xs).hasKey K = true ↔ ∃ x ∈ xs, key x = K := by
  rw [indexFrom_hasKey]
  simp [GoMap.hasKey, GoMap.make]

theorem index_stored_ne_nil {α : Type} (key : α → String) (xs : List α) (K : String)
    (s : Slice α) (h : indexFrom key GoMap.make xs K = some s) : s.toList ≠ [] :=
  indexFrom_stored_ne_nil key xs GoMap.make (fun _ _ h2 => by simp [GoMap.make] at h2) K s h

theorem regenciesByProvince_get (regencies : List Regency) (K : String) :
    ((regenciesByProvince regencies).get K).toList
      = regencies.filter (fun r => decide (r.ProvinceID = K)) := by
  rw [regenciesByProvince, regenciesByProvinceFrom_eq, index_get]

theorem districtsByRegency_get (districts : List District) (K : String) :
    ((districtsByRegency districts).get K).toList
      = districts.filter (fun d => decide (d.RegencyID = K)) := by
  rw [districtsByRegency, districtsByRegencyFrom_eq, index_get]

theorem villagesByDistrict_get (villages : List Village) (K : String) :
    ((villagesByDistrict villages).get K).toList
      = villages.filter (fun v => decide (v.DistrictID = K)) := by
  rw [villagesByDistrict, villagesByDistrictFrom_eq, index_get]

/-- C2: for each of the three grouping loops of `main`, every list of child
records and every key `K`, the group stored under `K` is exactly the
sub-sequence of the input whose parent reference is `K`, in input order; so a
child with parent reference `P` occurs in the group of `P` as often as in the
input, and in no group of another key. -/
theorem grouping_is_filter :
    (∀ (regencies : List Regency) (K : String),
      ((regenciesByProvince regencies).get K).toList
          = regencies.filter (fun r => decide (r.ProvinceID = K)) ∧
      (∀ c : Regency, c.ProvinceID = K →
        ((regenciesByProvince regencies).get K).toList.count c = regencies.count c) ∧
      (∀ c : Regency, c.ProvinceID ≠ K →
        c ∉ ((regenciesByProvince regencies).get K).toList)) ∧
    (∀ (districts : List District) (K : String),
      ((districtsByRegency districts).get K).toList
          = districts.filter (fun d => decide (d.RegencyID = K)) ∧
      (∀ c : District, c.RegencyID = K →
        ((districtsByRegency districts).get K).toList.count c = districts.count c) ∧
      (∀ c : District, c.RegencyID ≠ K →
        c ∉ ((districtsByRegency districts).get K).toList)) ∧
    (∀ (villages : List Village) (K : String),
      ((villagesByDistrict villages).get K).toList
          = villages.filter (fun v => decide (v.DistrictID = K)) ∧
      (∀ c : Village, c.DistrictID = K →
        ((villagesByDistrict villages).get K).toList.count c = villages.count c) ∧
      (∀ c : Village, c.DistrictID ≠ K →
        c ∉ ((villagesByDistrict villages).get K).toList)) := by
  refine ⟨fun xs K => ?_, fun xs K => ?_, fun xs K => ?_⟩
  · rw [regenciesByProvince_get]
    refine ⟨rfl, fun c hc => ?_, fun c hc hmem => ?_⟩
    · exact List.count_filter (by simpa using hc)
    · exact hc (by simpa using (List.mem_filter.mp hmem).2)
  · rw [districtsByRegency_get]
    refine ⟨rfl, fun c hc => ?_, fun c hc hmem => ?_⟩
    · exact List.count_filter (by simpa using hc)
    · exact hc (by simpa using (List.mem_filter.mp hmem).2)
  · rw [villagesByDistrict_get]
    refine ⟨rfl, fun c hc => ?_, fun c hc hmem => ?_⟩
    · exact List.count_filter (by simpa using hc)
    · exact hc (by simpa using (List.mem_filter.mp hmem).2)

/-- C10: in each of the three grouping indexes built by `main`, a key `K` is
present if and only if some child of the input list has parent reference
`K`, and every stored group is non-empty (and not the nil slice). -/
theorem index_key_iff_child :
    (∀ (regencies : List Regency) (K : String),
      ((regenciesByProvince regencies).hasKey K = true ↔ ∃ r ∈ regencies, r.ProvinceID = K) ∧
      (∀ s, regenciesByProvince regencies K = some s → s.toList ≠ [] ∧ s.isNil = false)) ∧
    (∀ (districts : List District) (K : String),
      ((districtsByRegency districts).hasKey K = true ↔ ∃ d ∈ districts, d.RegencyID = K) ∧
      (∀ s, districtsByRegency districts K = some s → s.toList ≠ [] ∧ s.isNil = false)) ∧
    (∀ (villages : List Village) (K : String),
      ((villagesByDistrict villages).hasKey K = true ↔ ∃ v ∈ villages, v.DistrictID = K) ∧
      (∀ s, villagesByDistrict villages K = some s → s.toList ≠ [] ∧ s.isNil = false)) := by
  have nonnil : ∀ {α : Type} (s : Slice α), s.toList ≠ [] → s.isNil = false := by
    intro α s hs
    cases s with
    | nil => exact absurd rfl hs
    | elems l => rfl
  refine ⟨fun xs K => ⟨?_, fun s hs => ?_⟩, fun xs K => ⟨?_, fun s hs => ?_⟩,
    fun xs K => ⟨?_, fun s hs => ?_⟩⟩
  · rw [regenciesByProvince, regenciesByProvinceFrom_eq]
    exact index_hasKey _ xs K
  · rw [regenciesByProvince, regenciesByProvinceFrom_eq] at hs
    have h := index_stored_ne_nil _ xs K s hs
    exact ⟨h, nonnil s h⟩
  · rw [districtsByRegency, districtsByRegencyFrom_eq]
    exact index_hasKey _ xs K
  · rw [districtsByRegency, districtsByRegencyFrom_eq] at hs
    have h := index_stored_ne_nil _ xs K s hs
    exact ⟨h, nonnil s h⟩
  · rw [villagesByDistrict, villagesByDistrictFrom_eq]
    exact index_hasKey _ xs K
  · rw [villagesByDistrict, villagesByDistrictFrom_eq] at hs
    have h := index_stored_ne_nil _ xs K s hs
    exact ⟨h, nonnil s h⟩

/-! ## The parsers -/

theorem readProvincesLoop_eq (n : Int) (results : Slice Province) (input : List RawRecord) :
    readProvincesLoop n results input = readLoop "provinces" buildProvince n results input := by
  induction input generalizing n results with
  | nil => rfl
  | cons raw rest ih =>
    simp only [readProvincesLoop, readLoop, buildProvince]
    split
    · rfl
    · split <;> simp_all

theorem readRegenciesLoop_eq (n : Int) (results : Slice Regency) (input : List RawRecord) :
    readRegenciesLoop n results input
      = readLoop "regencies" (buildThree Regency.mk) n results input := by
  induction input generalizing n results with
  | nil => rfl
  | cons raw rest ih =>
    simp only [readRegenciesLoop, readLoop, buildThree]
    split
    · rfl
    · split <;> simp_all

theorem readDistrictsLoop_eq (n : Int) (results : Slice District) (input : List RawRecord) :
    readDistrictsLoop n results input
      = readLoop "districts" (buildThree District.mk) n results input := by
  induction input generalizing n results with
  | nil => rfl
  | cons raw rest ih =>
    simp only [readDistrictsLoop, readLoop, buildThree]
    split
    · rfl
    · split <;> simp_all

theorem readVillagesLoop_eq (n : Int) (results : Slice Village) (input : List RawRecord) :
    readVillagesLoop n results input
      = readLoop "villages" (buildThree Village.mk) n results input := by
  induction input generalizing n results with
  | nil => rfl
  | cons raw rest ih =>
    simp only [readVillagesLoop, readLoop, buildThree]
    split
    · rfl
    · split <;> simp_all

theorem readProvinces_eq (file : Option (List RawRecord)) :
    readProvinces file = readCsv "provinces" buildProvince file := by
  unfold readProvinces readCsv
  simp only [readProvincesLoop_eq]

theorem readRegencies_eq (file : Option (List RawRecord)) :
    readRegencies file = readCsv "regencies" (buildThree Regency.mk) file := by
  unfold readRegencies readCsv
  simp only [readRegenciesLoop_eq]

theorem readDistricts_eq (file : Option (List RawRecord)) :
    readDistricts file = readCsv "districts" (buildThree District.mk) file := by
  unfold readDistricts readCsv
  simp only [readDistrictsLoop_eq]

theorem readVillages_eq (file : Option (List RawRecord)) :
    readVillages file = readCsv "villages" (buildThree Village.mk) file := by
  unfold readVillages readCsv
  simp only [readVillagesLoop_eq]

theorem readRecord_ok {n n2 : Int} {raw : RawRecord} {record : List String}
    (h : readRecord n raw = (.ok record, n2)) : raw.err = none ∧ record = raw.fields := by
  unfold readRecord at h
  cases he : raw.err with
  | some e =>
    simp [he] at h
    split at h <;> simp at h
  | none =>
    simp only [he, Option.map_none] at h
    split at h
    · split at h
      · simp at h
      · simp at h
        exact ⟨rfl, h.1.symm⟩
    · simp at h
      exact ⟨rfl, h.1.symm⟩

theorem readRecord_row {n : Int} {raw : RawRecord} (he : raw.err = none) (hn : 0 < n)
    (hl : (raw.fields.length : Int) = n) : readRecord n raw = (.ok raw.fields, n) := by
  unfold readRecord
  simp [he, hn, hl]

theorem readRecord_first (raw : RawRecord) (he : raw.err = none) :
    readRecord 0 raw = (.ok raw.fields, (raw.fields.length : Int)) := by
  unfold readRecord
  simp [he]

/-- A successful record loop has read only well-formed rows and has appended
one record per row, in row order. -/
theorem readLoop_ok {α : Type} (name : String) (build : List String → Except Fatal α)
    (input : List RawRecord) (n : Int) (results res : Slice α)
    (h : readLoop name build n results input = .ok res) :
    ∃ xs, res.toList = results.toList ++ xs ∧ (input = [] → res = results) ∧
      List.Forall₂ (fun raw x => raw.err = none ∧ build raw.fields = .ok x) input xs := by
  induction input generalizing n results with
  | nil =>
    simp only [readLoop, Except.ok.injEq] at h
    exact ⟨[], by simp [h], fun _ => h.symm, List.Forall₂.nil⟩
  | cons raw rest ih =>
    rw [readLoop] at h
    split at h
    · simp at h
    · rename_i record n2 hr
      obtain ⟨he, hrec⟩ := readRecord_ok hr
      split at h
      · simp at h
      · rename_i x hb
        obtain ⟨xs, hxs, _, hall⟩ := ih _ _ h
        refine ⟨x :: xs, ?_, fun hnil => by simp at hnil, List.Forall₂.cons ⟨he, ?_⟩ hall⟩
        · rw [hxs, Slice.toList_append]
          simp
        · rw [← hrec]
          exact hb

/-- The record loop succeeds on rows that are well formed, have the field
count the reader expects, and on which the loop body succeeds. -/
theorem readLoop_succeeds {α : Type} (name : String) (build : List String → Except Fatal α)
    (input : List RawRecord) (n : Int) (results : Slice α)
    (h : ∀ raw ∈ input, raw.err = none ∧ 0 < n ∧ (raw.fields.length : Int) = n ∧
      ∃ x, build raw.fields = .ok x) :
    ∃ res, readLoop name build n results input = .ok res := by
  induction input generalizing results with
  | nil => exact ⟨results, rfl⟩
  | cons raw rest ih =>
    obtain ⟨he, hn, hl, x, hx⟩ := h raw (List.mem_cons_self _ _)
    rw [readLoop, readRecord_row he hn hl]
    simp only [hx]
    exact ih _ (fun r hr => h r (List.mem_cons_of_mem _ hr))

/-- The record loop fails when the loop body fails on one of the rows. -/
theorem readLoop_fails {α : Type} (name : String) (build : List String → Except Fatal α)
    (input : List RawRecord) (n : Int) (results : Slice α)
    (h : ∃ raw ∈ input, ∀ x, build raw.fields ≠ .ok x) :
    ∃ e, readLoop name build n results input = .error e := by
  induction input generalizing n results with
  | nil => simp at h
  | cons raw rest ih =>
    rw [readLoop]
    split
    · exact ⟨_, rfl⟩
    · rename_i record n2 hr
      obtain ⟨_, hrec⟩ := readRecord_ok hr
      split
      · exact ⟨_, rfl⟩
      · rename_i x hb
        obtain ⟨bad, hmem, hbad⟩ := h
        rcases List.mem_cons.mp hmem with rfl | hmem
        · exact absurd (hrec ▸ hb) (hbad x)
        · exact ih _ _ ⟨bad, hmem, hbad⟩

/-- A successful parse: the file opened, its first line is the header, the
other lines are well-formed rows, and the result has one record per row. -/
theorem readCsv_ok {α : Type} (name : String) (build : List String → Except Fatal α)
    (file : Option (List RawRecord)) (res : Slice α) (h : readCsv name build file = .ok res) :
    ∃ hdr rows, file = some (hdr :: rows) ∧ (rows = [] → res = Slice.nil) ∧
      List.Forall₂ (fun raw x => raw.err = none ∧ build raw.fields = .ok x) rows res.toList := by
  unfold readCsv at h
  cases file with
  | none => simp at h
  | some input =>
    cases input with
    | nil => simp [NewReader, Reader.Read] at h
    | cons hdr rows =>
      simp only [NewReader, Reader.Read] at h
      split at h
      · simp at h
      · rename_i rec r hr
        simp only [Prod.mk.injEq] at hr
        rw [← hr.2] at h
        obtain ⟨xs, hxs, hnil, hall⟩ := readLoop_ok _ _ _ _ _ _ h
        refine ⟨hdr, rows, rfl, hnil, ?_⟩
        rw [hxs]
        simpa [Slice.toList] using hall

/-- A parse fails when the file has a data row on which the loop body fails. -/
theorem readCsv_fails {α : Type} (name : String) (build : List String → Except Fatal α)
    (input : List RawRecord) (h : ∃ raw ∈ input.tail, ∀ x, build raw.fields ≠ .ok x) :
    ∃ e, readCsv name build (some input) = .error e := by
  unfold readCsv
  cases input with
  | nil => simp at h
  | cons hdr rows =>
    simp only [NewReader, Reader.Read]
    split
    · exact ⟨_, rfl⟩
    · rename_i rec r hr
      simp only [Prod.mk.injEq] at hr
      rw [← hr.2]
      exact readLoop_fails _ _ _ _ _ h

/-- A parse succeeds when the header is well formed and every data row is
well formed, has as many fields as the header, and passes the loop body. -/
theorem readCsv_succeeds {α : Type} (name : String) (build : List String → Except Fatal α)
    (hdr : List String) (rows : List (List String))
    (h : ∀ row ∈ rows, row.length = hdr.length ∧ 0 < row.length ∧ ∃ x, build row = .ok x) :
    ∃ res, readCsv name build (some (RawRecord.row hdr :: rows.map RawRecord.row)) = .ok res := by
  unfold readCsv
  simp only [NewReader, Reader.Read, readRecord_first (RawRecord.row hdr) rfl]
  apply readLoop_succeeds
  intro raw hraw
  obtain ⟨row, hrow, rfl⟩ := List.mem_map.mp hraw
  obtain ⟨h1, h2, h3⟩ := h row hrow
  refine ⟨rfl, ?_, ?_, h3⟩
  · simp only [RawRecord.row]
    omega
  · simp only [RawRecord.row]
    omega

theorem buildProvince_ok (raw : RawRecord) (p : Province) :
    (raw.err = none ∧ buildProvince raw.fields = .ok p) ↔ ProvinceOfRow raw p := by
  unfold buildProvince ProvinceOfRow
  constructor
  · rintro ⟨he, h⟩
    refine ⟨he, ?_⟩
    split at h <;> simp at h
    rename_i c0 c1 h0 h1
    exact ⟨c0, c1, h0, h1, h.symm⟩
  · rintro ⟨he, c0, c1, h0, h1, rfl⟩
    refine ⟨he, ?_⟩
    simp [h0, h1]

theorem buildThree_ok {α : Type} (mk : String → String → String → α) (raw : RawRecord) (x : α) :
    (raw.err = none ∧ buildThree mk raw.fields = .ok x) ↔ ThreeOfRow mk raw x := by
  unfold buildThree ThreeOfRow
  constructor
  · rintro ⟨he, h⟩
    refine ⟨he, ?_⟩
    split at h <;> simp at h
    rename_i c0 c1 c2 h0 h1 h2
    exact ⟨c0, c1, c2, h0, h1, h2, h.symm⟩
  · rintro ⟨he, c0, c1, c2, h0, h1, h2, rfl⟩
    refine ⟨he, ?_⟩
    simp [h0, h1, h2]

theorem buildProvince_of_length (record : List String) (h : 2 ≤ record.length) :
    ∃ p, buildProvince record = .ok p := by
  match record, h with
  | c0 :: c1 :: rest, _ => exact ⟨⟨TrimSpace c0, TrimSpace c1⟩, by simp [buildProvince]⟩

theorem buildThree_of_length {α : Type} (mk : String → String → String → α)
    (record : List String) (h : 3 ≤ record.length) : ∃ x, buildThree mk record = .ok x := by
  match record, h with
  | c0 :: c1 :: c2 :: rest, _ =>
    exact ⟨mk (TrimSpace c0) (TrimSpace c1) (TrimSpace c2), by simp [buildThree]⟩

theorem buildThree_short {α : Type} (mk : String → String → String → α)
    (record : List String) (h : record.length < 3) (x : α) : buildThree mk record ≠ .ok x := by
  match record, h with
  | [], _ => simp [buildThree]
  | [c0], _ => simp [buildThree]
  | [c0, c1], _ => simp [buildThree]

/-! ## `strings.TrimSpace` -/

theorem rdropWhile_append_rtakeWhile {α : Type} (p : α → Bool) (l : List α) :
    l.rdropWhile p ++ l.rtakeWhile p = l := by
  unfold List.rdropWhile List.rtakeWhile
  rw [← List.reverse_append, List.takeWhile_append_dropWhile, List.reverse_reverse]

theorem head_rdropWhile_dropWhile {α : Type} (p : α → Bool) (l : List α) (c : α)
    (h : ((l.dropWhile p).rdropWhile p).head? = some c) : p c = false := by
  have hp : (l.dropWhile p).rdropWhile p <+: l.dropWhile p := List.rdropWhile_prefix p _
  obtain ⟨t, ht⟩ := hp
  have hd : (l.dropWhile p).head? = some c := by
    rw [← ht]
    cases hx : (l.dropWhile p).rdropWhile p with
    | nil => rw [hx] at h; simp at h
    | cons a as => rw [hx] at h; simpa using h
  have := List.head?_dropWhile_not p l
  rw [hd] at this
  exact this

theorem getLast_rdropWhile {α : Type} (p : α → Bool) (l : List α) (c : α)
    (h : (l.rdropWhile p).getLast? = some c) : p c = false := by
  have hne : l.rdropWhile p ≠ [] := by
    intro e
    rw [e] at h
    simp at h
  have hn := List.rdropWhile_last_not p l hne
  rw [List.getLast?_eq_getLast _ hne] at h
  simp only [Option.some.injEq] at h
  rw [h] at hn
  simpa using hn

theorem dropWhile_of_head {α : Type} (p : α → Bool) (l : List α)
    (h : ∀ c, l.head? = some c → p c = false) : l.dropWhile p = l := by
  cases l with
  | nil => rfl
  | cons a as =>
    have := h a rfl
    simp [List.dropWhile_cons, this]

/-- The result of `TrimSpace` is the argument without its white-space margin. -/
theorem TrimSpace_isTrimOf (raw : String) : IsTrimOf raw (TrimSpace raw) := by
  refine ⟨⟨raw.data.takeWhile isSpace, (raw.data.dropWhile isSpace).rtakeWhile isSpace,
    ?_, ?_, ?_⟩, ?_, ?_⟩
  · show raw.data = _ ++ (raw.data.dropWhile isSpace).rdropWhile isSpace ++ _
    rw [List.append_assoc, rdropWhile_append_rtakeWhile, List.takeWhile_append_dropWhile]
  · intro c hc
    exact List.mem_takeWhile_imp hc
  · intro c hc
    exact List.mem_rtakeWhile_imp hc
  · intro c hc
    exact head_rdropWhile_dropWhile isSpace raw.data c hc
  · intro c hc
    exact getLast_rdropWhile isSpace _ c hc

/-- Trimming a trimmed string leaves it unchanged. -/
theorem TrimSpace_idem (raw : String) : TrimSpace (TrimSpace raw) = TrimSpace raw := by
  unfold TrimSpace
  congr 1
  show (((raw.data.dropWhile isSpace).rdropWhile isSpace).dropWhile isSpace).rdropWhile isSpace
    = (raw.data.dropWhile isSpace).rdropWhile isSpace
  rw [dropWhile_of_head isSpace _ (head_rdropWhile_dropWhile isSpace raw.data),
    List.rdropWhile_idempotent]

theorem TrimmedField_TrimSpace (raw : String) : TrimmedField raw (TrimSpace raw) :=
  ⟨rfl, TrimSpace_isTrimOf raw, TrimSpace_idem raw⟩

theorem forall₂_right_mem {α β : Type} {R : α → β → Prop} {l1 : List α} {l2 : List β}
    (h : List.Forall₂ R l1 l2) : ∀ y ∈ l2, ∃ x ∈ l1, R x y := by
  induction h with
  | nil => simp
  | cons hxy _ ih =>
    intro y hy
    rcases List.mem_cons.mp hy with rfl | hy
    · exact ⟨_, List.mem_cons_self _ _, hxy⟩
    · obtain ⟨x, hx, hR⟩ := ih y hy
      exact ⟨x, List.mem_cons_of_mem _ hx, hR⟩

theorem readProvinces_ok (file : Option (List RawRecord)) (res : Slice Province)
    (h : readProvinces file = .ok res) :
    ∃ hdr rows, file = some (hdr :: rows) ∧ (rows = [] → res = Slice.nil) ∧
      List.Forall₂ ProvinceOfRow rows res.toList := by
  rw [readProvinces_eq] at h
  obtain ⟨hdr, rows, hf, hnil, hall⟩ := readCsv_ok _ _ _ _ h
  exact ⟨hdr, rows, hf, hnil, hall.imp (fun _ _ hab => (buildProvince_ok _ _).mp hab)⟩

theorem readRegencies_ok (file : Option (List RawRecord)) (res : Slice Regency)
    (h : readRegencies file = .ok res) :
    ∃ hdr rows, file = some (hdr :: rows) ∧ (rows = [] → res = Slice.nil) ∧
      List.Forall₂ (ThreeOfRow Regency.mk) rows res.toList := by
  rw [readRegencies_eq] at h
  obtain ⟨hdr, rows, hf, hnil, hall⟩ := readCsv_ok _ _ _ _ h
  exact ⟨hdr, rows, hf, hnil, hall.imp (fun _ _ hab => (buildThree_ok _ _ _).mp hab)⟩

theorem readDistricts_ok (file : Option (List RawRecord)) (res : Slice District)
    (h : readDistricts file = .ok res) :
    ∃ hdr rows, file = some (hdr :: rows) ∧ (rows = [] → res = Slice.nil) ∧
      List.Forall₂ (ThreeOfRow District.mk) rows res.toList := by
  rw [readDistricts_eq] at h
  obtain ⟨hdr, rows, hf, hnil, hall⟩ := readCsv_ok _ _ _ _ h
  exact ⟨hdr, rows, hf, hnil, hall.imp (fun _ _ hab => (buildThree_ok _ _ _).mp hab)⟩

theorem readVillages_ok (file : Option (List RawRecord)) (res : Slice Village)
    (h : readVillages file = .ok res) :
    ∃ hdr rows, file = some (hdr :: rows) ∧ (rows = [] → res = Slice.nil) ∧
      List.Forall₂ (ThreeOfRow Village.mk) rows res.toList := by
  rw [readVillages_eq] at h
  obtain ⟨hdr, rows, hf, hnil, hall⟩ := readCsv_ok _ _ _ _ h
  exact ⟨hdr, rows, hf, hnil, hall.imp (fun _ _ hab => (buildThree_ok _ _ _).mp hab)⟩

/-- C4: for each of the four parsers and every file that parses successfully,
the file is a header followed by data rows and the returned sequence has
exactly one record per data row, in file order: the i-th record is built from
the i-th row, id from column 0, parent reference (if any) from column 1, name
from the last required column, each stripped of white space. -/
theorem parse_one_record_per_row :
    (∀ file res, readProvinces file = .ok res →
      ∃ hdr rows, file = some (hdr :: rows) ∧ res.toList.length = rows.length ∧
        List.Forall₂ ProvinceOfRow rows res.toList) ∧
    (∀ file res, readRegencies file = .ok res →
      ∃ hdr rows, file = some (hdr :: rows) ∧ res.toList.length = rows.length ∧
        List.Forall₂ (ThreeOfRow Regency.mk) rows res.toList) ∧
    (∀ file res, readDistricts file = .ok res →
      ∃ hdr rows, file = some (hdr :: rows) ∧ res.toList.length = rows.length ∧
        List.Forall₂ (ThreeOfRow District.mk) rows res.toList) ∧
    (∀ file res, readVillages file = .ok res →
      ∃ hdr rows, file = some (hdr :: rows) ∧ res.toList.length = rows.length ∧
        List.Forall₂ (ThreeOfRow Village.mk) rows res.toList) := by
  refine ⟨fun file res h => ?_, fun file res h => ?_, fun file res h => ?_,
    fun file res h => ?_⟩
  · obtain ⟨hdr, rows, hf, _, hall⟩ := readProvinces_ok file res h
    exact ⟨hdr, rows, hf, hall.length_eq.symm, hall⟩
  · obtain ⟨hdr, rows, hf, _, hall⟩ := readRegencies_ok file res h
    exact ⟨hdr, rows, hf, hall.length_eq.symm, hall⟩
  · obtain ⟨hdr, rows, hf, _, hall⟩ := readDistricts_ok file res h
    exact ⟨hdr, rows, hf, hall.length_eq.symm, hall⟩
  · obtain ⟨hdr, rows, hf, _, hall⟩ := readVillages_ok file res h
    exact ⟨hdr, rows, hf, hall.length_eq.symm, hall⟩

/-- C4 at a regencies file with two data rows. -/
theorem parse_one_record_per_row_witness :
    readRegencies (some [.row ["id", "province_id", "name"],
        .row ["1101", "11", "Simeulue"], .row ["1102", "11", " Aceh Singkil"]])
      = .ok (.elems [⟨"1101", "11", "Simeulue"⟩, ⟨"1102", "11", "Aceh Singkil"⟩]) ∧
    ∃ hdr rows, some [RawRecord.row ["id", "province_id", "name"],
        .row ["1101", "11", "Simeulue"], .row ["1102", "11", " Aceh Singkil"]]
          = some (hdr :: rows) ∧
      (Slice.elems [Regency.mk "1101" "11" "Simeulue",
        ⟨"1102", "11", "Aceh Singkil"⟩]).toList.length = rows.length ∧
      List.Forall₂ (ThreeOfRow Regency.mk) rows
        (Slice.elems [Regency.mk "1101" "11" "Simeulue", ⟨"1102", "11", "Aceh Singkil"⟩]).toList :=
  ⟨by decide, parse_one_record_per_row.2.1 _ _ (by decide)⟩

/-- C7: every field of every record returned by any of the four parsers is
the trimmed raw column of a data row of the file: it equals `TrimSpace` of the
column, is the column without its white-space margin (interior unchanged, no
leading or trailing white space), and trimming it again leaves it unchanged. -/
theorem parsed_fields_trimmed :
    (∀ file res, readProvinces file = .ok res → ∀ p ∈ res.toList,
      ∃ raw ∈ (file.getD []).tail, ∃ c0 c1,
        raw.fields[0]? = some c0 ∧ raw.fields[1]? = some c1 ∧
        TrimmedField c0 p.ID ∧ TrimmedField c1 p.Name) ∧
    (∀ file res, readRegencies file = .ok res → ∀ r ∈ res.toList,
      ∃ raw ∈ (file.getD []).tail, ∃ c0 c1 c2,
        raw.fields[0]? = some c0 ∧ raw.fields[1]? = some c1 ∧ raw.fields[2]? = some c2 ∧
        TrimmedField c0 r.ID ∧ TrimmedField c1 r.ProvinceID ∧ TrimmedField c2 r.Name) ∧
    (∀ file res, readDistricts file = .ok res → ∀ d ∈ res.toList,
      ∃ raw ∈ (file.getD []).tail, ∃ c0 c1 c2,
        raw.fields[0]? = some c0 ∧ raw.fields[1]? = some c1 ∧ raw.fields[2]? = some c2 ∧
        TrimmedField c0 d.ID ∧ TrimmedField c1 d.RegencyID ∧ TrimmedField c2 d.Name) ∧
    (∀ file res, readVillages file = .ok res → ∀ v ∈ res.toList,
      ∃ raw ∈ (file.getD []).tail, ∃ c0 c1 c2,
        raw.fields[0]? = some c0 ∧ raw.fields[1]? = some c1 ∧ raw.fields[2]? = some c2 ∧
        TrimmedField c0 v.ID ∧ TrimmedField c1 v.DistrictID ∧ TrimmedField c2 v.Name) := by
  refine ⟨fun file res h p hp => ?_, fun file res h p hp => ?_, fun file res h p hp => ?_,
    fun file res h p hp => ?_⟩
  · obtain ⟨hdr, rows, hf, _, hall⟩ := readProvinces_ok file res h
    obtain ⟨raw, hraw, _, c0, c1, h0, h1, rfl⟩ := forall₂_right_mem hall p hp
    subst hf
    exact ⟨raw, hraw, c0, c1, h0, h1, TrimmedField_TrimSpace c0, TrimmedField_TrimSpace c1⟩
  · obtain ⟨hdr, rows, hf, _, hall⟩ := readRegencies_ok file res h
    obtain ⟨raw, hraw, _, c0, c1, c2, h0, h1, h2, rfl⟩ := forall₂_right_mem hall p hp
    subst hf
    exact ⟨raw, hraw, c0, c1, c2, h0, h1, h2, TrimmedField_TrimSpace c0,
      TrimmedField_TrimSpace c1, TrimmedField_TrimSpace c2⟩
  · obtain ⟨hdr, rows, hf, _, hall⟩ := readDistricts_ok file res h
    obtain ⟨raw, hraw, _, c0, c1, c2, h0, h1, h2, rfl⟩ := forall₂_right_mem hall p hp
    subst hf
    exact ⟨raw, hraw, c0, c1, c2, h0, h1, h2, TrimmedField_TrimSpace c0,
      TrimmedField_TrimSpace c1, TrimmedField_TrimSpace c2⟩
  · obtain ⟨hdr, rows, hf, _, hall⟩ := readVillages_ok file res h
    obtain ⟨raw, hraw, _, c0, c1, c2, h0, h1, h2, rfl⟩ := forall₂_right_mem hall p hp
    subst hf
    exact ⟨raw, hraw, c0, c1, c2, h0, h1, h2, TrimmedField_TrimSpace c0,
      TrimmedField_TrimSpace c1, TrimmedField_TrimSpace c2⟩

/-- C7 at a provinces file whose name column is `  Jakarta ` (two leading
spaces, one trailing): the parsed name is `Jakarta`. -/
theorem parsed_fields_trimmed_witness :
    TrimSpace "  Jakarta " = "Jakarta" ∧
    readProvinces (some [.row ["id", "name"], .row ["31", "  Jakarta "]])
      = .ok (.elems [⟨"31", "Jakarta"⟩]) ∧
    ∃ raw ∈ ((some [RawRecord.row ["id", "name"], .row ["31", "  Jakarta "]]).getD []).tail,
      ∃ c0 c1, raw.fields[0]? = some c0 ∧ raw.fields[1]? = some c1 ∧
        TrimmedField c0 (Province.mk "31" "Jakarta").ID ∧
        TrimmedField c1 (Province.mk "31" "Jakarta").Name :=
  ⟨by decide, by decide,
    parsed_fields_trimmed.1 _ (.elems [⟨"31", "Jakarta"⟩]) (by decide) ⟨"31", "Jakarta"⟩
      (by simp [Slice.toList])⟩

/-- C8: for each of the four parsers, a file that holds only a header row
(whatever its fields) parses successfully to the empty sequence. -/
theorem header_only_parses_empty (hdr : List String) :
    (readProvinces (some [RawRecord.row hdr]) = .ok Slice.nil ∧
      readRegencies (some [RawRecord.row hdr]) = .ok Slice.nil ∧
      readDistricts (some [RawRecord.row hdr]) = .ok Slice.nil ∧
      readVillages (some [RawRecord.row hdr]) = .ok Slice.nil) ∧
    (Slice.nil : Slice Province).toList = [] ∧ (Slice.nil : Slice Regency).toList = [] ∧
    (Slice.nil : Slice District).toList = [] ∧ (Slice.nil : Slice Village).toList = [] := by
  have hr : readRecord 0 (RawRecord.row hdr) = (.ok hdr, (hdr.length : Int)) :=
    readRecord_first _ rfl
  refine ⟨⟨?_, ?_, ?_, ?_⟩, rfl, rfl, rfl, rfl⟩
  · simp [readProvinces, NewReader, Reader.Read, hr, readProvincesLoop]
  · simp [readRegencies, NewReader, Reader.Read, hr, readRegenciesLoop]
  · simp [readDistricts, NewReader, Reader.Read, hr, readDistrictsLoop]
  · simp [readVillages, NewReader, Reader.Read, hr, readVillagesLoop]

/-- C6 as stated fails: a provinces file whose header has one column and
whose data row has the two required columns, and a districts file whose
header has three columns and whose data row has a fourth, are rejected with
`ErrFieldCount`, although every data row is well formed and has the required
columns. -/
theorem header_field_count_is_checked :
    (∀ row ∈ [["11", "Aceh"]], 2 ≤ row.length) ∧
    readProvinces (some (RawRecord.row ["id"] :: [["11", "Aceh"]].map RawRecord.row))
      = .error (.recordFailed "provinces" .ErrFieldCount) ∧
    (∀ row ∈ [["110101", "1101", "Teupah Selatan", "x"]], 3 ≤ row.length) ∧
    readDistricts (some (RawRecord.row ["id", "regency_id", "name"] ::
        [["110101", "1101", "Teupah Selatan", "x"]].map RawRecord.row))
      = .error (.recordFailed "districts" .ErrFieldCount) := by
  decide

/-- C6 as amended: for each of the four parsers, a file with a well-formed
header row in which every data row is well formed, has at least the entity's
field count of columns (2 for provinces, 3 otherwise) and has exactly as many
columns as the header row, parses successfully to one record per data row;
the header's names are not looked at and columns beyond the required ones are
ignored. -/
theorem parse_succeeds_when_rows_match_header :
    (∀ (hdr : List String) (rows : List (List String)),
      (∀ row ∈ rows, row.length = hdr.length ∧ 2 ≤ row.length) →
      ∃ res, readProvinces (some (RawRecord.row hdr :: rows.map RawRecord.row)) = .ok res ∧
        List.Forall₂ ProvinceOfRow (rows.map RawRecord.row) res.toList) ∧
    (∀ (hdr : List String) (rows : List (List String)),
      (∀ row ∈ rows, row.length = hdr.length ∧ 3 ≤ row.length) →
      ∃ res, readRegencies (some (RawRecord.row hdr :: rows.map RawRecord.row)) = .ok res ∧
        List.Forall₂ (ThreeOfRow Regency.mk) (rows.map RawRecord.row) res.toList) ∧
    (∀ (hdr : List String) (rows : List (List String)),
      (∀ row ∈ rows, row.length = hdr.length ∧ 3 ≤ row.length) →
      ∃ res, readDistricts (some (RawRecord.row hdr :: rows.map RawRecord.row)) = .ok res ∧
        List.Forall₂ (ThreeOfRow District.mk) (rows.map RawRecord.row) res.toList) ∧
    (∀ (hdr : List String) (rows : List (List String)),
      (∀ row ∈ rows, row.length = hdr.length ∧ 3 ≤ row.length) →
      ∃ res, readVillages (some (RawRecord.row hdr :: rows.map RawRecord.row)) = .ok res ∧
        List.Forall₂ (ThreeOfRow Village.mk) (rows.map RawRecord.row) res.toList) := by
  refine ⟨fun hdr rows h => ?_, fun hdr rows h => ?_, fun hdr rows h => ?_,
    fun hdr rows h => ?_⟩
  · obtain ⟨res, hres⟩ := readCsv_succeeds "provinces" buildProvince hdr rows
      (fun row hrow => ⟨(h row hrow).1, by have := (h row hrow).2; omega,
        buildProvince_of_length row (h row hrow).2⟩)
    rw [← readProvinces_eq] at hres
    obtain ⟨hdr2, rows2, hf, _, hall⟩ := readProvinces_ok _ _ hres
    simp only [Option.some.injEq, List.cons.injEq] at hf
    exact ⟨res, hres, hf.2 ▸ hall⟩
  · obtain ⟨res, hres⟩ := readCsv_succeeds "regencies" (buildThree Regency.mk) hdr rows
      (fun row hrow => ⟨(h row hrow).1, by have := (h row hrow).2; omega,
        buildThree_of_length _ row (h row hrow).2⟩)
    rw [← readRegencies_eq] at hres
    obtain ⟨hdr2, rows2, hf, _, hall⟩ := readRegencies_ok _ _ hres
    simp only [Option.some.injEq, List.cons.injEq] at hf
    exact ⟨res, hres, hf.2 ▸ hall⟩
  · obtain ⟨res, hres⟩ := readCsv_succeeds "districts" (buildThree District.mk) hdr rows
      (fun row hrow => ⟨(h row hrow).1, by have := (h row hrow).2; omega,
        buildThree_of_length _ row (h row hrow).2⟩)
    rw [← readDistricts_eq] at hres
    obtain ⟨hdr2, rows2, hf, _, hall⟩ := readDistricts_ok _ _ hres
    simp only [Option.some.injEq, List.cons.injEq] at hf
    exact ⟨res, hres, hf.2 ▸ hall⟩
  · obtain ⟨res, hres⟩ := readCsv_succeeds "villages" (buildThree Village.mk) hdr rows
      (fun row hrow => ⟨(h row hrow).1, by have := (h row hrow).2; omega,
        buildThree_of_length _ row (h row hrow).2⟩)
    rw [← readVillages_eq] at hres
    obtain ⟨hdr2, rows2, hf, _, hall⟩ := readVillages_ok _ _ hres
    simp only [Option.some.injEq, List.cons.injEq] at hf
    exact ⟨res, hres, hf.2 ▸ hall⟩

/-- C6 as amended, at a districts file whose header names are not the
documented ones and whose rows have a fourth column, like the header. -/
theorem parse_succeeds_when_rows_match_header_witness :
    (∀ row ∈ [["110101", "1101", "Teupah Selatan", "x"]],
      row.length = ["a", "b", "c", "d"].length ∧ 3 ≤ row.length) ∧
    ∃ res, readDistricts (some (RawRecord.row ["a", "b", "c", "d"] ::
        [["110101", "1101", "Teupah Selatan", "x"]].map RawRecord.row)) = .ok res ∧
      List.Forall₂ (ThreeOfRow District.mk)
        ([["110101", "1101", "Teupah Selatan", "x"]].map RawRecord.row) res.toList :=
  ⟨by decide, parse_succeeds_when_rows_match_header.2.2.1 _ _ (by decide)⟩

/-! ## Reading a listing document back -/

theorem hexValue_hexDigit (k : Nat) (h : k < 16) : hexValue (hexDigit k) = some k := by
  interval_cases k <;> decide

theorem char_of_toNat {c : Char} {k : Nat} (h : c.toNat = k) : c = Char.ofNat k := by
  rw [← h, Char.ofNat_toNat]

theorem readStringBody_short (e ch : Char) (rest : List Char) (he : e ≠ 'u')
    (h : unescape e = some ch) :
    readStringBody (backslash :: e :: rest)
      = match readStringBody rest with
        | some (s, r) => some (ch :: s, r)
        | none => none := by
  have hb : backslash ≠ dquote := by decide
  rw [readStringBody.eq_def]
  simp only [hb, if_false, if_true, he, h]
  cases readStringBody rest with
  | none => rfl
  | some p => rfl

theorem readStringBody_unicode (a b c d ch : Char) (rest : List Char)
    (h : unicodeEscape a b c d = some ch) :
    readStringBody (backslash :: 'u' :: a :: b :: c :: d :: rest)
      = match readStringBody rest with
        | some (s, r) => some (ch :: s, r)
        | none => none := by
  have hb : backslash ≠ dquote := by decide
  rw [readStringBody.eq_def]
  simp only [hb, if_false, if_true, h]
  cases readStringBody rest with
  | none => rfl
  | some p => rfl

theorem readStringBody_plain (c : Char) (rest : List Char) (h1 : c ≠ dquote)
    (h2 : c ≠ backslash) (h3 : ¬ c.toNat < 0x20) :
    readStringBody (c :: rest)
      = match readStringBody rest with
        | some (s, r) => some (c :: s, r)
        | none => none := by
  rw [readStringBody.eq_def]
  simp only [h1, h2, h3, if_false]

/-- Reading back what the encoder writes for one rune gives the rune. -/
theorem readStringBody_escapeRune (c : Char) (rest : List Char) :
    readStringBody (escapeRune c ++ rest)
      = match readStringBody rest with
        | some (s, r) => some (c :: s, r)
        | none => none := by
  unfold escapeRune
  simp only []
  split_ifs with h1 h2 h3 h4 h5 h6 h7 h8 h9
  · rcases h1 with h | h
    · rw [char_of_toNat h]
      exact readStringBody_short _ _ rest (by decide) (by decide)
    · rw [char_of_toNat h]
      exact readStringBody_short _ _ rest (by decide) (by decide)
  · rw [char_of_toNat h2]
    exact readStringBody_short _ _ rest (by decide) (by decide)
  · rw [char_of_toNat h3]
    exact readStringBody_short _ _ rest (by decide) (by decide)
  · rw [char_of_toNat h4]
    exact readStringBody_short _ _ rest (by decide) (by decide)
  · rw [char_of_toNat h5]
    exact readStringBody_short _ _ rest (by decide) (by decide)
  · rw [char_of_toNat h6]
    exact readStringBody_short _ _ rest (by decide) (by decide)
  · have hlt : c.toNat < 64 := by omega
    refine readStringBody_unicode _ _ _ _ c rest ?_
    unfold unicodeEscape
    have h0 : hexValue '0' = some 0 := by decide
    rw [h0, hexValue_hexDigit _ (by omega), hexValue_hexDigit _ (Nat.mod_lt _ (by decide))]
    have hn : ((0 * 16 + 0) * 16 + c.toNat / 16) * 16 + c.toNat % 16 = c.toNat := by omega
    simp only [hn, Char.ofNat_toNat]
    rw [if_neg (by omega)]
  · rw [char_of_toNat h8]
    exact readStringBody_unicode _ _ _ _ _ rest (by decide)
  · rw [char_of_toNat h9]
    exact readStringBody_unicode _ _ _ _ _ rest (by decide)
  · refine readStringBody_plain c rest ?_ ?_ ?_
    · intro e
      exact h1 (Or.inl (by rw [e]; decide))
    · intro e
      exact h1 (Or.inr (by rw [e]; decide))
    · intro hlt
      exact h7 (Or.inl hlt)

/-- Reading back an encoded string gives the string and the input after it. -/
theorem readString_quoteString (s : String) (rest : List Char) :
    readString ((quoteString s).data ++ rest) = some (s, rest) := by
  have body : ∀ (l rest : List Char),
      readStringBody (l.flatMap escapeRune ++ dquote :: rest) = some (l, rest) := by
    intro l
    induction l with
    | nil =>
      intro rest
      rw [readStringBody.eq_def]
      simp
    | cons c cs ih =>
      intro rest
      rw [List.flatMap_cons, List.append_assoc, readStringBody_escapeRune, ih]
  show readString (dquote :: (s.data.flatMap escapeRune ++ [dquote]) ++ rest) = some (s, rest)
  rw [readString.eq_def]
  simp only [List.cons_append, List.append_assoc, List.singleton_append, if_true, body]
  rfl

theorem skipSpace_spaces (ws r : List Char) (h : ∀ c ∈ ws, isJSONSpace c = true) :
    skipSpace (ws ++ r) = skipSpace r := by
  induction ws with
  | nil => rfl
  | cons c cs ih =>
    have hc := h c (List.mem_cons_self _ _)
    rw [List.cons_append, skipSpace, List.dropWhile_cons, if_pos hc]
    exact ih (fun x hx => h x (List.mem_cons_of_mem _ hx))

theorem skipSpace_cons (c : Char) (r : List Char) (h : isJSONSpace c = false) :
    skipSpace (c :: r) = c :: r := by
  rw [skipSpace, List.dropWhile_cons, h]
  simp

theorem quoteString_data (s : String) :
    (quoteString s).data = dquote :: (s.data.flatMap escapeRune ++ [dquote]) := rfl

theorem skipSpace_quoteString (s : String) (r : List Char) :
    skipSpace ((quoteString s).data ++ r) = (quoteString s).data ++ r := by
  rw [quoteString_data, List.cons_append]
  exact skipSpace_cons _ _ (by decide)

theorem intercalate_go_cons (sep acc b : String) (l : List String) :
    String.intercalate.go acc sep (b :: l) = acc ++ sep ++ String.intercalate.go b sep l := by
  induction l generalizing acc b with
  | nil => simp [String.intercalate.go]
  | cons c l ih =>
    rw [String.intercalate.go, ih, ih b]
    simp [String.append_assoc]

theorem intercalate_cons_cons (sep a b : String) (l : List String) :
    String.intercalate sep (a :: b :: l) = a ++ sep ++ String.intercalate sep (b :: l) := by
  simp only [String.intercalate]
  exact intercalate_go_cons sep a b l

theorem intercalate_singleton (sep a : String) : String.intercalate sep [a] = a := by
  simp [String.intercalate, String.intercalate.go]

/-- One member of an indented object as the encoder writes it. -/
theorem readMembers_step (fuel : Nat) (k v : String) (tail : List Char) :
    readMembers (fuel + 1) ((quoteString k ++ ": " ++ quoteString v).data ++ tail)
      = match skipSpace tail with
        | [] => none
        | d :: r4 =>
          if d = ',' then
            match readMembers fuel (skipSpace r4) with
            | some (ms, r5) => some ((k, v) :: ms, r5)
            | none => none
          else if d = rbrace then some ([(k, v)], r4)
          else none := by
  have h1 : (quoteString k ++ ": " ++ quoteString v).data ++ tail
      = (quoteString k).data ++ (':' :: ' ' :: ((quoteString v).data ++ tail)) := by
    simp [String.data_append]
  have h2 : skipSpace (':' :: ' ' :: ((quoteString v).data ++ tail))
      = ':' :: ' ' :: ((quoteString v).data ++ tail) := skipSpace_cons _ _ (by decide)
  have h3 : skipSpace (' ' :: ((quoteString v).data ++ tail)) = (quoteString v).data ++ tail := by
    rw [← List.singleton_append, skipSpace_spaces _ _ (by decide), skipSpace_quoteString]
  rw [h1, readMembers.eq_def]
  simp only [readString_quoteString, h2, if_true, h3]

theorem skipSpace_marshalMember (kv : String × String) (r : List Char) :
    skipSpace ((marshalMember kv).data ++ r) = (marshalMember kv).data ++ r := by
  simp only [marshalMember, String.data_append, List.append_assoc]
  exact skipSpace_quoteString _ _

theorem intercalate_map_head (sep : String) (f : String × String) (fs : List (String × String)) :
    ∃ t, (String.intercalate sep ((f :: fs).map marshalMember)).data = (marshalMember f).data ++ t := by
  cases fs with
  | nil => exact ⟨[], by simp [intercalate_singleton]⟩
  | cons g tl =>
    refine ⟨sep.data ++ (String.intercalate sep ((g :: tl).map marshalMember)).data, ?_⟩
    simp only [List.map_cons, intercalate_cons_cons, String.data_append, List.append_assoc]

theorem skipSpace_members (sep : String) (f : String × String) (fs : List (String × String))
    (r : List Char) :
    skipSpace ((String.intercalate sep ((f :: fs).map marshalMember)).data ++ r)
      = (String.intercalate sep ((f :: fs).map marshalMember)).data ++ r := by
  obtain ⟨t, ht⟩ := intercalate_map_head sep f fs
  rw [ht, List.append_assoc]
  exact skipSpace_marshalMember _ _

/-- The members of an indented object, read back. -/
theorem readMembers_ok (fs : List (String × String)) (hne : fs ≠ []) (sep : String)
    (wsSep ws rest : List Char) (hsep : sep.data = ',' :: wsSep)
    (hwsSep : ∀ c ∈ wsSep, isJSONSpace c = true) (hws : ∀ c ∈ ws, isJSONSpace c = true)
    (fuel : Nat) (hfuel : fs.length ≤ fuel) :
    readMembers fuel ((String.intercalate sep (fs.map marshalMember)).data ++
        (ws ++ rbrace :: rest)) = some (fs, rest) := by
  induction fs generalizing fuel with
  | nil => exact absurd rfl hne
  | cons f tl ih =>
    obtain ⟨n, rfl⟩ : ∃ n, fuel = n + 1 := ⟨fuel - 1, by simp at hfuel; omega⟩
    cases tl with
    | nil =>
      simp only [List.map_cons, List.map_nil, intercalate_singleton]
      have := readMembers_step n f.1 f.2 (ws ++ rbrace :: rest)
      simp only [marshalMember]
      rw [this, skipSpace_spaces _ _ hws, skipSpace_cons _ _ (by decide)]
      simp only [show rbrace ≠ ',' by decide, if_false, if_true]
    | cons g tl2 =>
      have hlen : (g :: tl2).length ≤ n := by simp at hfuel ⊢; omega
      have ih2 := ih (by simp) n hlen
      have hskip := skipSpace_members sep g tl2 (ws ++ rbrace :: rest)
      simp only [List.map_cons, intercalate_cons_cons, String.data_append, List.append_assoc]
      have := readMembers_step n f.1 f.2
        (sep.data ++ ((String.intercalate sep (marshalMember g :: tl2.map marshalMember)).data ++
          (ws ++ rbrace :: rest)))
      simp only [marshalMember] at this ⊢
      rw [this, hsep, List.cons_append, skipSpace_cons _ _ (by decide)]
      simp only [if_true]
      rw [skipSpace_spaces _ _ hwsSep]
      simp only [List.map_cons, marshalMember] at ih2 hskip
      rw [hskip, ih2]

theorem intercalate_length_ge_count (sep : String) (l : List String)
    (h : ∀ s ∈ l, 1 ≤ s.data.length) : l.length ≤ (String.intercalate sep l).data.length := by
  induction l with
  | nil => simp
  | cons a tl ih =>
    cases tl with
    | nil =>
      have := h a (List.mem_cons_self _ _)
      simpa [intercalate_singleton] using this
    | cons b tl2 =>
      have h1 := h a (List.mem_cons_self _ _)
      have h2 := ih (fun s hs => h s (List.mem_cons_of_mem _ hs))
      rw [intercalate_cons_cons]
      simp only [String.data_append, List.length_append, List.length_cons] at h2 ⊢
      omega

theorem intercalate_length_ge_elem (sep : String) (l : List String) (s : String) (hs : s ∈ l) :
    s.data.length ≤ (String.intercalate sep l).data.length := by
  induction l with
  | nil => simp at hs
  | cons a tl ih =>
    cases tl with
    | nil =>
      simp only [List.mem_singleton] at hs
      simp [intercalate_singleton, hs]
    | cons b tl2 =>
      rw [intercalate_cons_cons]
      simp only [String.data_append, List.length_append]
      rcases List.mem_cons.mp hs with rfl | hs2
      · omega
      · have := ih hs2
        omega

theorem marshalMember_length (kv : String × String) : 1 ≤ (marshalMember kv).data.length := by
  simp [marshalMember, String.data_append, quoteString_data]

theorem newline_two : (newline "" "  " 2).data = ['\n', ' ', ' ', ' ', ' '] := by decide

theorem newline_one : (newline "" "  " 1).data = ['\n', ' ', ' '] := by decide

theorem newline_zero : (newline "" "  " 0).data = ['\n'] := by decide

/-- The data of an indented object with at least one member. -/
theorem marshalStruct_data {α : Type} [JSONStruct α] (x : α) (f : String × String)
    (fs : List (String × String)) (h : JSONStruct.jsonFields x = f :: fs) :
    (marshalStruct "" "  " 1 x).data
      = lbrace :: (['\n', ' ', ' ', ' ', ' '] ++
          ((String.intercalate ("," ++ newline "" "  " 2) ((f :: fs).map marshalMember)).data ++
            (['\n', ' ', ' '] ++ [rbrace]))) := by
  unfold marshalStruct
  rw [h]
  simp only [String.data_append, newline_two, newline_one, List.append_assoc]
  rfl

theorem marshalStruct_data_nil {α : Type} [JSONStruct α] (x : α)
    (h : JSONStruct.jsonFields x = []) : (marshalStruct "" "  " 1 x).data = [lbrace, rbrace] := by
  unfold marshalStruct
  rw [h]
  rfl

theorem marshalStruct_head {α : Type} [JSONStruct α] (x : α) :
    ∃ t, (marshalStruct "" "  " 1 x).data = lbrace :: t := by
  cases h : JSONStruct.jsonFields x with
  | nil => exact ⟨_, marshalStruct_data_nil x h⟩
  | cons f fs => exact ⟨_, marshalStruct_data x f fs h⟩

theorem marshalStruct_length {α : Type} [JSONStruct α] (x : α) :
    (JSONStruct.jsonFields x).length ≤ (marshalStruct "" "  " 1 x).data.length := by
  cases h : JSONStruct.jsonFields x with
  | nil => simp
  | cons f fs =>
    rw [marshalStruct_data x f fs h]
    have := intercalate_length_ge_count ("," ++ newline "" "  " 2) ((f :: fs).map marshalMember)
      (fun s hs => by
        obtain ⟨kv, _, rfl⟩ := List.mem_map.mp hs
        exact marshalMember_length kv)
    simp only [List.length_map, List.length_cons, List.length_append] at this ⊢
    omega

/-- An indented object, read back. -/
theorem readObject_ok {α : Type} [JSONStruct α] (x : α) (fuel : Nat)
    (hfuel : (JSONStruct.jsonFields x).length ≤ fuel) (tail : List Char) :
    readObject fuel ((marshalStruct "" "  " 1 x).data ++ tail)
      = some (JSONStruct.jsonFields x, tail) := by
  cases h : JSONStruct.jsonFields x with
  | nil =>
    rw [marshalStruct_data_nil x h]
    simp only [List.cons_append, List.nil_append, readObject, if_true,
      skipSpace_cons rbrace tail (by decide), List.head?_cons, List.tail_cons]
  | cons f fs =>
    have hdata : (marshalStruct "" "  " 1 x).data ++ tail
        = lbrace :: (['\n', ' ', ' ', ' ', ' '] ++
          ((String.intercalate ("," ++ newline "" "  " 2) ((f :: fs).map marshalMember)).data ++
            (['\n', ' ', ' '] ++ rbrace :: tail))) := by
      rw [marshalStruct_data x f fs h]
      simp
    obtain ⟨t, ht⟩ := intercalate_map_head ("," ++ newline "" "  " 2) f fs
    have hhead : ((String.intercalate ("," ++ newline "" "  " 2)
        ((f :: fs).map marshalMember)).data ++ (['\n', ' ', ' '] ++ rbrace :: tail)).head?
        ≠ some rbrace := by
      rw [ht]
      simp only [marshalMember, String.data_append, quoteString_data, List.cons_append,
        List.head?_cons]
      decide
    rw [hdata, readObject, if_pos rfl, skipSpace_spaces _ _ (by decide), skipSpace_members,
      if_neg hhead]
    rw [h] at hfuel
    exact readMembers_ok (f :: fs) (by simp) _ ['\n', ' ', ' ', ' ', ' '] ['\n', ' ', ' '] tail
      (by simp [String.data_append, newline_two]) (by decide) (by decide) fuel hfuel

theorem skipSpace_marshalStruct {α : Type} [JSONStruct α] (x : α) (r : List Char) :
    skipSpace ((marshalStruct "" "  " 1 x).data ++ r) = (marshalStruct "" "  " 1 x).data ++ r := by
  obtain ⟨t, ht⟩ := marshalStruct_head x
  rw [ht, List.cons_append]
  exact skipSpace_cons _ _ (by decide)

theorem intercalate_structs_head {α : Type} [JSONStruct α] (sep : String) (x : α) (l : List α) :
    ∃ t, (String.intercalate sep ((x :: l).map (marshalStruct "" "  " 1))).data
      = (marshalStruct "" "  " 1 x).data ++ t := by
  cases l with
  | nil => exact ⟨[], by simp [intercalate_singleton]⟩
  | cons y tl =>
    refine ⟨sep.data ++ (String.intercalate sep ((y :: tl).map (marshalStruct "" "  " 1))).data, ?_⟩
    simp only [List.map_cons, intercalate_cons_cons, String.data_append, List.append_assoc]

theorem skipSpace_structs {α : Type} [JSONStruct α] (sep : String) (x : α) (l : List α)
    (r : List Char) :
    skipSpace ((String.intercalate sep ((x :: l).map (marshalStruct "" "  " 1))).data ++ r)
      = (String.intercalate sep ((x :: l).map (marshalStruct "" "  " 1))).data ++ r := by
  obtain ⟨t, ht⟩ := intercalate_structs_head sep x l
  rw [ht, List.append_assoc]
  exact skipSpace_marshalStruct _ _

/-- The elements of an indented array, read back. -/
theorem readElements_ok {α : Type} [JSONStruct α] (l : List α) (hne : l ≠ []) (sep : String)
    (wsSep ws rest : List Char) (hsep : sep.data = ',' :: wsSep)
    (hwsSep : ∀ c ∈ wsSep, isJSONSpace c = true) (hws : ∀ c ∈ ws, isJSONSpace c = true)
    (fuelObject : Nat) (hobj : ∀ x ∈ l, (JSONStruct.jsonFields x).length ≤ fuelObject)
    (fuel : Nat) (hfuel : l.length ≤ fuel) :
    readElements fuelObject fuel
      ((String.intercalate sep (l.map (marshalStruct "" "  " 1))).data ++ (ws ++ ']' :: rest))
      = some (l.map JSONStruct.jsonFields, rest) := by
  induction l generalizing fuel with
  | nil => exact absurd rfl hne
  | cons x tl ih =>
    obtain ⟨n, rfl⟩ : ∃ n, fuel = n + 1 := ⟨fuel - 1, by simp at hfuel; omega⟩
    have hx := hobj x (List.mem_cons_self _ _)
    cases tl with
    | nil =>
      simp only [List.map_cons, List.map_nil, intercalate_singleton]
      rw [readElements, readObject_ok x fuelObject hx]
      simp only []
      rw [skipSpace_spaces _ _ hws, skipSpace_cons _ _ (by decide)]
      simp only [show (']' : Char) ≠ ',' by decide, if_false, if_true]
    | cons y tl2 =>
      have hlen : (y :: tl2).length ≤ n := by simp at hfuel ⊢; omega
      have ih2 := ih (by simp) (fun z hz => hobj z (List.mem_cons_of_mem _ hz)) n hlen
      have hskip := skipSpace_structs sep y tl2 (ws ++ ']' :: rest)
      simp only [List.map_cons, intercalate_cons_cons, String.data_append, List.append_assoc]
      rw [readElements, readObject_ok x fuelObject hx]
      simp only []
      rw [hsep, List.cons_append, skipSpace_cons _ _ (by decide)]
      simp only [if_true]
      rw [skipSpace_spaces _ _ hwsSep]
      simp only [List.map_cons] at ih2 hskip
      rw [hskip, ih2]

/-- The data of an indented array with at least one element. -/
theorem MarshalIndent_data {α : Type} [JSONStruct α] (x : α) (l : List α) :
    (MarshalIndent (Slice.elems (x :: l)) "" "  ").data
      = '[' :: (['\n', ' ', ' '] ++
          ((String.intercalate ("," ++ newline "" "  " 1)
              ((x :: l).map (marshalStruct "" "  " 1))).data ++ (['\n'] ++ [']']))) := by
  unfold MarshalIndent
  simp only [String.data_append, newline_one, newline_zero, List.append_assoc]
  rfl

/-- A listing document of at least one record, read back as JSON, is the
array of the records: one object per record, in order, with the members of
its `json` tags. -/
theorem decodeListing_MarshalIndent {α : Type} [JSONStruct α] (l : List α) (hne : l ≠ []) :
    decodeListing (MarshalIndent (Slice.elems l) "" "  ")
      = some (l.map JSONStruct.jsonFields) := by
  cases l with
  | nil => exact absurd rfl hne
  | cons x tl =>
    have hdata := MarshalIndent_data x tl
    have hI : ∀ s ∈ (x :: tl).map (marshalStruct "" "  " 1),
        s.data.length ≤ (MarshalIndent (Slice.elems (x :: tl)) "" "  ").data.length := by
      intro s hs
      have := intercalate_length_ge_elem ("," ++ newline "" "  " 1) _ s hs
      rw [hdata]
      simp only [List.length_cons, List.length_append]
      omega
    have hcount : (x :: tl).length
        ≤ (MarshalIndent (Slice.elems (x :: tl)) "" "  ").data.length := by
      have := intercalate_length_ge_count ("," ++ newline "" "  " 1)
        ((x :: tl).map (marshalStruct "" "  " 1)) (fun s hs => by
          obtain ⟨y, _, rfl⟩ := List.mem_map.mp hs
          obtain ⟨t, ht⟩ := marshalStruct_head y
          rw [ht]
          simp)
      rw [hdata]
      simp only [List.length_map, List.length_cons, List.length_append] at this ⊢
      omega
    have hobj : ∀ y ∈ x :: tl, (JSONStruct.jsonFields y).length
        ≤ (MarshalIndent (Slice.elems (x :: tl)) "" "  ").data.length := fun y hy =>
      le_trans (marshalStruct_length y) (hI _ (List.mem_map_of_mem _ hy))
    have hread := readElements_ok (x :: tl) (by simp) ("," ++ newline "" "  " 1)
      ['\n', ' ', ' '] ['\n'] [] (by simp [String.data_append, newline_one]) (by decide)
      (by decide) _ hobj _ hcount
    have hhead : ((String.intercalate ("," ++ newline "" "  " 1)
        ((x :: tl).map (marshalStruct "" "  " 1))).data ++ (['\n'] ++ [']'])).head?
        ≠ some ']' := by
      obtain ⟨t, ht⟩ := intercalate_structs_head ("," ++ newline "" "  " 1) x tl
      obtain ⟨t2, ht2⟩ := marshalStruct_head x
      rw [ht, ht2]
      simp only [List.cons_append, List.head?_cons]
      decide
    unfold decodeListing
    generalize hn : (MarshalIndent (Slice.elems (x :: tl)) "" "  ").data.length = n at hread ⊢
    rw [hdata, skipSpace_cons _ _ (by decide)]
    simp only [if_true]
    rw [skipSpace_spaces _ _ (by decide), skipSpace_structs, if_neg hhead, hread]
    simp [skipSpace]

/-! ## The run -/

theorem writeRegencies_eq (env : Env) (idx : GoMap (Slice Regency)) (xs : List Province)
    (w : World) : writeRegencies env idx xs w = writeEach env "regencies" Province.ID idx xs w := by
  induction xs generalizing w with
  | nil => rfl
  | cons x rest ih =>
    simp only [writeRegencies, writeEach]
    split
    · rfl
    · exact ih _

theorem writeDistricts_eq (env : Env) (idx : GoMap (Slice District)) (xs : List Regency)
    (w : World) : writeDistricts env idx xs w = writeEach env "districts" Regency.ID idx xs w := by
  induction xs generalizing w with
  | nil => rfl
  | cons x rest ih =>
    simp only [writeDistricts, writeEach]
    split
    · rfl
    · exact ih _

theorem writeVillages_eq (env : Env) (idx : GoMap (Slice Village)) (xs : List District)
    (w : World) : writeVillages env idx xs w = writeEach env "villages" District.ID idx xs w := by
  induction xs generalizing w with
  | nil => rfl
  | cons x rest ih =>
    simp only [writeVillages, writeEach]
    split
    · rfl
    · exact ih _

theorem World.extend_nil (w : World) : w.extend [] = w := by
  cases w
  simp [World.extend, writeAll]

theorem World.extend_extend (w : World) (a b : List (String × String)) :
    (w.extend a).extend b = w.extend (a ++ b) := by
  simp [World.extend, writeAll, List.foldl_append]

theorem WriteFile_eq_extend (filePath bytes : String) (w : World) :
    WriteFile filePath bytes w = w.extend [(filePath, bytes)] := by
  simp [WriteFile, World.extend, writeAll]

/-- Where the write succeeds, `writeJSON` writes the marshalled data. -/
theorem writeJSON_ok {α : Type} [JSONStruct α] (env : Env) (filePath : String)
    (data : Slice α) (w : World)
    (h : env.osWriteFile w.files filePath (MarshalIndent data "" "  ") = .ok) :
    writeJSON env filePath data w = (w.extend [(filePath, MarshalIndent data "" "  ")], none) := by
  simp [writeJSON, h, WriteFile_eq_extend]

/-- A `writeJSON` call that returns has written the marshalled data. -/
theorem writeJSON_none {α : Type} [JSONStruct α] (env : Env) (filePath : String)
    (data : Slice α) (w : World) (h : (writeJSON env filePath data w).2 = none) :
    writeJSON env filePath data w = (w.extend [(filePath, MarshalIndent data "" "  ")], none) := by
  cases ho : env.osWriteFile w.files filePath (MarshalIndent data "" "  ") with
  | ok => exact writeJSON_ok env filePath data w ho
  | failed left => simp [writeJSON, ho] at h

/-- An emitting loop that runs to its end has written one document per
parent, in parent order. -/
theorem writeEach_none {α β : Type} [JSONStruct β] (env : Env) (dir : String)
    (key : α → String) (idx : GoMap (Slice β)) (xs : List α) (w : World)
    (h : (writeEach env dir key idx xs w).2 = none) :
    writeEach env dir key idx xs w
      = (w.extend (xs.map (fun x => (Join ["static", "api", dir, key x ++ ".json"],
          MarshalIndent (idx.get (key x)) "" "  "))), none) := by
  induction xs generalizing w with
  | nil => simp [writeEach, World.extend_nil]
  | cons x rest ih =>
    rw [writeEach] at h ⊢
    cases hj : writeJSON env (Join ["static", "api", dir, key x ++ ".json"]) (idx.get (key x)) w with
    | mk w1 e1 =>
      cases e1 with
      | some e => simp [hj] at h
      | none =>
        have h1 := writeJSON_none env _ _ w (by rw [hj])
        rw [hj] at h1 h
        simp only [Prod.mk.injEq, and_true] at h1
        simp only at h ⊢
        rw [ih w1 h, h1, World.extend_extend]
        rfl

/-- Where no write fails, an emitting loop writes one document per parent,
in parent order. -/
theorem writeEach_ok {α β : Type} [JSONStruct β] (env : Env) (dir : String)
    (key : α → String) (idx : GoMap (Slice β)) (xs : List α)
    (h : ∀ f path bytes, env.osWriteFile f path bytes = .ok) (w : World) :
    writeEach env dir key idx xs w
      = (w.extend (xs.map (fun x => (Join ["static", "api", dir, key x ++ ".json"],
          MarshalIndent (idx.get (key x)) "" "  "))), none) := by
  induction xs generalizing w with
  | nil => simp [writeEach, World.extend_nil]
  | cons x rest ih =>
    simp only [writeEach, writeJSON_ok env _ _ _ (h _ _ _), ih, World.extend_extend,
      List.map_cons, List.singleton_append]

/-- Writing the same documents a second time changes no file. -/
theorem writeAll_idem (ws : List (String × String)) (fs : FS) :
    writeAll ws (writeAll ws fs) = writeAll ws fs := by
  have key : ∀ (ws : List (String × String)) (f g : FS) (q : String),
      (∀ d ∈ ws, q ≠ d.1) ∨ writeAll ws f q = writeAll ws g q := by
    intro ws
    induction ws using List.reverseRecOn with
    | nil => intro f g q; exact Or.inl (by simp)
    | append_singleton ws d ih =>
      intro f g q
      by_cases hq : q = d.1
      · right
        simp [writeAll, List.foldl_append, hq]
      · rcases ih f g q with h | h
        · left
          intro e he
          rcases List.mem_append.mp he with he | he
          · exact h e he
          · simp only [List.mem_singleton] at he
            rw [he]
            exact hq
        · right
          simp only [writeAll, List.foldl_append, List.foldl_cons, List.foldl_nil, hq, if_false]
          exact h
  have frame : ∀ (ws : List (String × String)) (f : FS) (q : String),
      (∀ d ∈ ws, q ≠ d.1) → writeAll ws f q = f q := by
    intro ws
    induction ws using List.reverseRecOn with
    | nil => intro f q _; rfl
    | append_singleton ws d ih =>
      intro f q h
      have hq : q ≠ d.1 := h d (by simp)
      simp only [writeAll, List.foldl_append, List.foldl_cons, List.foldl_nil, hq, if_false]
      exact ih f q (fun e he => h e (List.mem_append_left _ he))
  funext q
  rcases key ws (writeAll ws fs) fs q with h | h
  · exact frame ws _ q h
  · exact h

theorem splitSlash_ne_nil (l : List Char) : splitSlash l ≠ [] := by
  cases l with
  | nil => simp [splitSlash]
  | cons c cs =>
    rw [splitSlash]
    split
    · simp
    · split <;> simp

theorem splitSlash_plain (l : List Char) (h : '/' ∉ l) : splitSlash l = [l] := by
  induction l with
  | nil => rfl
  | cons c cs ih =>
    have hc : c ≠ '/' := fun e => h (by simp [e])
    have hcs : '/' ∉ cs := fun e => h (List.mem_cons_of_mem _ e)
    rw [splitSlash, if_neg hc, ih hcs]

theorem splitSlash_append (a b : List Char) (h : '/' ∉ a) :
    splitSlash (a ++ '/' :: b) = a :: splitSlash b := by
  induction a with
  | nil => simp [splitSlash]
  | cons c cs ih =>
    have hc : c ≠ '/' := fun e => h (by simp [e])
    have hcs : '/' ∉ cs := fun e => h (List.mem_cons_of_mem _ e)
    rw [List.cons_append, splitSlash, if_neg hc, ih hcs]

theorem cleanElem_keep (out : List (List Char)) (e : List Char) (h0 : e ≠ [])
    (h1 : e ≠ ['.']) (h2 : e ≠ ['.', '.']) : cleanElem false out e = e :: out := by
  simp [cleanElem, h0, h1, h2]

theorem foldl_cleanElem_keep (comps acc : List (List Char))
    (h : ∀ e ∈ comps, e ≠ [] ∧ e ≠ ['.'] ∧ e ≠ ['.', '.']) :
    comps.foldl (cleanElem false) acc = comps.reverse ++ acc := by
  induction comps generalizing acc with
  | nil => rfl
  | cons e rest ih =>
    obtain ⟨h0, h1, h2⟩ := h e (List.mem_cons_self _ _)
    rw [List.foldl_cons, cleanElem_keep _ _ h0 h1 h2,
      ih _ (fun x hx => h x (List.mem_cons_of_mem _ hx))]
    simp

/-- A relative path whose elements are all proper names is already clean. -/
theorem Clean_of_plain (path : String) (c : Char) (cs : List Char) (hp : path.data = c :: cs)
    (hc : c ≠ '/') (h : ∀ e ∈ splitSlash path.data, e ≠ [] ∧ e ≠ ['.'] ∧ e ≠ ['.', '.']) :
    Clean path = ⟨List.intercalate ['/'] (splitSlash path.data)⟩ := by
  unfold Clean
  have hne : path.data ≠ [] := by rw [hp]; simp
  have hroot : (decide (path.data.head? = some '/')) = false := by
    rw [hp]
    simp [hc]
  simp only [hne, if_false, hroot, foldl_cleanElem_keep _ _ h, List.append_nil,
    List.reverse_reverse, splitSlash_ne_nil]
  simp

theorem Join_static_api (dir id : String) (hd : '/' ∉ dir.data) (hd0 : dir.data ≠ [])
    (hd1 : dir.data ≠ ['.']) (hd2 : dir.data ≠ ['.', '.']) (hid : '/' ∉ id.data) :
    Join ["static", "api", dir, id ++ ".json"]
      = "static/api/" ++ dir ++ "/" ++ id ++ ".json" := by
  have hlast : '/' ∉ id.data ++ ".json".data := by
    intro h
    rcases List.mem_append.mp h with h | h
    · exact hid h
    · revert h; decide
  have hsplit : splitSlash ("static".data ++ '/' :: ("api".data ++ '/' ::
      (dir.data ++ '/' :: (id.data ++ ".json".data))))
      = ["static".data, "api".data, dir.data, id.data ++ ".json".data] := by
    rw [splitSlash_append _ _ (by decide), splitSlash_append _ _ (by decide),
      splitSlash_append _ _ hd, splitSlash_plain _ hlast]
  have hlen : 5 ≤ (id.data ++ ".json".data).length := by
    simp [List.length_append]
  have hl0 : id.data ++ ".json".data ≠ [] := by
    intro e; rw [e] at hlen; simp at hlen
  have hl1 : id.data ++ ".json".data ≠ ['.'] := by
    intro e; rw [e] at hlen; simp at hlen
  have hl2 : id.data ++ ".json".data ≠ ['.', '.'] := by
    intro e; rw [e] at hlen; simp at hlen
  have hdata : (String.intercalate "/" ["static", "api", dir, id ++ ".json"]).data
      = "static".data ++ '/' :: ("api".data ++ '/' ::
        (dir.data ++ '/' :: (id.data ++ ".json".data))) := by
    simp [String.intercalate, String.intercalate.go]
  have hne : ("static" : String) ≠ "" := by decide
  rw [Join, if_neg hne]
  have hall : ∀ e ∈ splitSlash (String.intercalate "/" ["static", "api", dir, id ++ ".json"]).data,
      e ≠ [] ∧ e ≠ ['.'] ∧ e ≠ ['.', '.'] := by
    rw [hdata, hsplit]
    intro e he
    simp only [List.mem_cons, List.mem_singleton, List.not_mem_nil, or_false] at he
    rcases he with rfl | rfl | rfl | rfl
    · decide
    · decide
    · exact ⟨hd0, hd1, hd2⟩
    · exact ⟨hl0, hl1, hl2⟩
  rw [Clean_of_plain _ 's' _ (by rw [hdata]; rfl) (by decide) hall, hdata, hsplit]
  apply String.ext
  simp [List.intercalate, String.data_append]

/-- The run when all four files parse and no write fails: success, and the
writes are the provinces document followed by one document per province, per
regency and per district. -/
theorem main_ok (env : Env) (fs : FS) (provinces : Slice Province) (regencies : Slice Regency)
    (districts : Slice District) (villages : Slice Village)
    (hp : readProvinces env.provinces = .ok provinces)
    (hr : readRegencies env.regencies = .ok regencies)
    (hd : readDistricts env.districts = .ok districts)
    (hv : readVillages env.villages = .ok villages)
    (hw : ∀ f path bytes, env.osWriteFile f path bytes = .ok) :
    (main env fs).exit = .success ∧
    (main env fs).world.written = documents provinces regencies districts villages ∧
    (main env fs).world.files
      = writeAll (documents provinces regencies districts villages) fs := by
  unfold main
  simp only [hp, hr, hd, hv, createOutputDirs, writeRegencies_eq, writeDistricts_eq,
    writeVillages_eq, writeJSON_ok env _ _ _ (hw _ _ _), writeEach_ok env _ _ _ _ hw,
    World.extend_extend]
  simp [World.extend, documents]

/-- A successful run has parsed the four files and has written the documents
of the parsed input over the files it started from. -/
theorem main_success (env : Env) (fs : FS) (h : (main env fs).exit = .success) :
    ∃ provinces regencies districts villages,
      readProvinces env.provinces = .ok provinces ∧
      readRegencies env.regencies = .ok regencies ∧
      readDistricts env.districts = .ok districts ∧
      readVillages env.villages = .ok villages ∧
      (main env fs).world.written = documents provinces regencies districts villages ∧
      (main env fs).world.files
        = writeAll (documents provinces regencies districts villages) fs := by
  unfold main at h ⊢
  cases hp : readProvinces env.provinces with
  | error e => simp [hp] at h
  | ok provinces =>
  cases hr : readRegencies env.regencies with
  | error e => simp [hp, hr] at h
  | ok regencies =>
  cases hd : readDistricts env.districts with
  | error e => simp [hp, hr, hd] at h
  | ok districts =>
  cases hv : readVillages env.villages with
  | error e => simp [hp, hr, hd, hv] at h
  | ok villages =>
  refine ⟨provinces, regencies, districts, villages, rfl, rfl, rfl, rfl, ?_⟩
  simp only [hp, hr, hd, hv, createOutputDirs, writeRegencies_eq, writeDistricts_eq,
    writeVillages_eq] at h ⊢
  cases h1 : writeJSON env (Join ["static", "api", "provinces.json"]) provinces ⟨fs, [], []⟩ with
  | mk w2 e2 =>
  cases e2 with
  | some e => simp [h1] at h
  | none =>
  have g1 := writeJSON_none env _ _ _ (by rw [h1])
  rw [h1] at g1
  simp only [Prod.mk.injEq, and_true] at g1
  subst g1
  simp only [h1] at h ⊢
  cases h2 : writeEach env "regencies" Province.ID (regenciesByProvince regencies.toList)
      provinces.toList _ with
  | mk w3 e3 =>
  cases e3 with
  | some e => simp [h2] at h
  | none =>
  have g2 := writeEach_none env _ _ _ _ _ (by rw [h2])
  rw [h2] at g2
  simp only [Prod.mk.injEq, and_true] at g2
  subst g2
  simp only [h2] at h ⊢
  cases h3 : writeEach env "districts" Regency.ID (districtsByRegency districts.toList)
      regencies.toList _ with
  | mk w4 e4 =>
  cases e4 with
  | some e => simp [h3] at h
  | none =>
  have g3 := writeEach_none env _ _ _ _ _ (by rw [h3])
  rw [h3] at g3
  simp only [Prod.mk.injEq, and_true] at g3
  subst g3
  simp only [h3] at h ⊢
  cases h4 : writeEach env "villages" District.ID (villagesByDistrict villages.toList)
      districts.toList _ with
  | mk w5 e5 =>
  cases e5 with
  | some e => simp [h4] at h
  | none =>
  have g4 := writeEach_none env _ _ _ _ _ (by rw [h4])
  rw [h4] at g4
  simp only [Prod.mk.injEq, and_true] at g4
  subst g4
  simp [World.extend, documents, writeAll]

/-! ## The listing documents -/

theorem listingPath_data (dir id : String) :
    (listingPath dir id).data
      = "static/api/".data ++ (dir.data ++ ('/' :: (id.data ++ ".json".data))) := by
  simp [listingPath, String.data_append]

theorem listingPath_inj (dir a b : String) (h : listingPath dir a = listingPath dir b) :
    a = b := by
  have h2 := congrArg String.data h
  rw [listingPath_data, listingPath_data] at h2
  have h3 := List.append_cancel_left (List.append_cancel_left h2)
  simp only [List.cons.injEq, true_and] at h3
  exact String.ext (List.append_cancel_right h3)

theorem listingPath_regencies_ne_districts (a b : String) :
    listingPath "regencies" a ≠ listingPath "districts" b := by
  intro h
  have h2 := congrArg String.data h
  rw [listingPath_data, listingPath_data] at h2
  simp at h2

theorem listingPath_regencies_ne_villages (a b : String) :
    listingPath "regencies" a ≠ listingPath "villages" b := by
  intro h
  have h2 := congrArg String.data h
  rw [listingPath_data, listingPath_data] at h2
  simp at h2

theorem listingPath_districts_ne_villages (a b : String) :
    listingPath "districts" a ≠ listingPath "villages" b := by
  intro h
  have h2 := congrArg String.data h
  rw [listingPath_data, listingPath_data] at h2
  simp at h2

theorem provincesPath_ne_regencies (a : String) :
    "static/api/provinces.json" ≠ listingPath "regencies" a := by
  intro h
  have h2 := congrArg String.data h
  rw [listingPath_data] at h2
  simp at h2

theorem provincesPath_ne_districts (a : String) :
    "static/api/provinces.json" ≠ listingPath "districts" a := by
  intro h
  have h2 := congrArg String.data h
  rw [listingPath_data] at h2
  simp at h2

theorem provincesPath_ne_villages (a : String) :
    "static/api/provinces.json" ≠ listingPath "villages" a := by
  intro h
  have h2 := congrArg String.data h
  rw [listingPath_data] at h2
  simp at h2

theorem Join_provinces : Join ["static", "api", "provinces.json"] = "static/api/provinces.json" := by
  decide

theorem Join_regencies (id : String) (h : '/' ∉ id.data) :
    Join ["static", "api", "regencies", id ++ ".json"] = listingPath "regencies" id :=
  Join_static_api "regencies" id (by decide) (by decide) (by decide) (by decide) h

theorem Join_districts (id : String) (h : '/' ∉ id.data) :
    Join ["static", "api", "districts", id ++ ".json"] = listingPath "districts" id :=
  Join_static_api "districts" id (by decide) (by decide) (by decide) (by decide) h

theorem Join_villages (id : String) (h : '/' ∉ id.data) :
    Join ["static", "api", "villages", id ++ ".json"] = listingPath "villages" id :=
  Join_static_api "villages" id (by decide) (by decide) (by decide) (by decide) h

/-- The document of a non-empty slice is the JSON array of its records. -/
theorem isListingOf_marshal {α : Type} [JSONStruct α] (s : Slice α) (xs : List α)
    (h : s.toList = xs) (hne : xs ≠ []) : IsListingOf (MarshalIndent s "" "  ") xs := by
  cases s with
  | nil => exact absurd h.symm hne
  | elems l =>
    simp only [Slice.toList] at h
    subst h
    exact decodeListing_MarshalIndent l hne

/-- A record that appears in the document of a slice is in the slice. -/
theorem mentions_marshal {α : Type} [JSONStruct α] (s : Slice α)
    (fields : List (String × String)) (h : Mentions (MarshalIndent s "" "  ") fields) :
    ∃ x ∈ s.toList, JSONStruct.jsonFields x = fields := by
  obtain ⟨rows, hrows, hmem⟩ := h
  cases s with
  | nil =>
    have : decodeListing (MarshalIndent (Slice.nil : Slice α) "" "  ") = none := by
      show decodeListing "null" = none
      decide
    rw [this] at hrows
    cases hrows
  | elems l =>
    cases l with
    | nil =>
      have : decodeListing (MarshalIndent (Slice.elems ([] : List α)) "" "  ") = some [] := by
        show decodeListing "[]" = some []
        decide
      rw [this] at hrows
      cases hrows
      simp at hmem
    | cons x tl =>
      rw [decodeListing_MarshalIndent (x :: tl) (by simp)] at hrows
      cases hrows
      obtain ⟨y, hy, e⟩ := List.mem_map.mp hmem
      exact ⟨y, hy, e⟩

theorem not_mentions_marshal {α : Type} [JSONStruct α] (s : Slice α)
    (fields : List (String × String))
    (h : ∀ x ∈ s.toList, JSONStruct.jsonFields x ≠ fields) :
    ¬ Mentions (MarshalIndent s "" "  ") fields := by
  intro hm
  obtain ⟨x, hx, e⟩ := mentions_marshal s fields hm
  exact h x hx e

/-- The file at a path that was written holds the bytes of the writes to it,
when these all agree. -/
theorem writeAll_lookup (ws : List (String × String)) (fs : FS) (q b : String)
    (hex : ∃ d ∈ ws, d.1 = q) (hall : ∀ d ∈ ws, d.1 = q → d.2 = b) :
    writeAll ws fs q = some b := by
  induction ws using List.reverseRecOn with
  | nil => simp at hex
  | append_singleton ws d ih =>
    simp only [writeAll, List.foldl_append, List.foldl_cons, List.foldl_nil]
    by_cases hq : q = d.1
    · rw [if_pos hq, hall d (by simp) hq.symm]
    · rw [if_neg hq]
      apply ih
      · obtain ⟨e, he, heq⟩ := hex
        rcases List.mem_append.mp he with he | he
        · exact ⟨e, he, heq⟩
        · simp only [List.mem_singleton] at he
          rw [he] at heq
          exact absurd heq.symm hq
      · exact fun e he => hall e (List.mem_append_left _ he)

theorem jsonFields_province_inj (a b : Province)
    (h : JSONStruct.jsonFields a = JSONStruct.jsonFields b) : a = b := by
  cases a
  cases b
  simp [JSONStruct.jsonFields] at h
  simp [h]

theorem jsonFields_regency_inj (a b : Regency)
    (h : JSONStruct.jsonFields a = JSONStruct.jsonFields b) : a = b := by
  cases a
  cases b
  simp [JSONStruct.jsonFields] at h
  simp [h]

theorem jsonFields_district_inj (a b : District)
    (h : JSONStruct.jsonFields a = JSONStruct.jsonFields b) : a = b := by
  cases a
  cases b
  simp [JSONStruct.jsonFields] at h
  simp [h]

theorem jsonFields_village_inj (a b : Village)
    (h : JSONStruct.jsonFields a = JSONStruct.jsonFields b) : a = b := by
  cases a
  cases b
  simp [JSONStruct.jsonFields] at h
  simp [h]

theorem jsonFields_province_ne_regency (a : Province) (b : Regency) :
    JSONStruct.jsonFields a ≠ JSONStruct.jsonFields b := by
  simp [JSONStruct.jsonFields]

theorem jsonFields_province_ne_district (a : Province) (b : District) :
    JSONStruct.jsonFields a ≠ JSONStruct.jsonFields b := by
  simp [JSONStruct.jsonFields]

theorem jsonFields_province_ne_village (a : Province) (b : Village) :
    JSONStruct.jsonFields a ≠ JSONStruct.jsonFields b := by
  simp [JSONStruct.jsonFields]

theorem jsonFields_regency_ne_district (a : Regency) (b : District) :
    JSONStruct.jsonFields a ≠ JSONStruct.jsonFields b := by
  simp [JSONStruct.jsonFields]

theorem jsonFields_regency_ne_village (a : Regency) (b : Village) :
    JSONStruct.jsonFields a ≠ JSONStruct.jsonFields b := by
  simp [JSONStruct.jsonFields]

theorem jsonFields_district_ne_village (a : District) (b : Village) :
    JSONStruct.jsonFields a ≠ JSONStruct.jsonFields b := by
  simp [JSONStruct.jsonFields]

/-- Every document of a run is the provinces document or the document of a
province, of a regency or of a district. -/
theorem mem_documents (provinces : Slice Province) (regencies : Slice Regency)
    (districts : Slice District) (villages : Slice Village) (d : String × String)
    (h : d ∈ documents provinces regencies districts villages) :
    d = (Join ["static", "api", "provinces.json"], MarshalIndent provinces "" "  ") ∨
    (∃ p ∈ provinces.toList, d = (Join ["static", "api", "regencies", p.ID ++ ".json"],
      MarshalIndent ((regenciesByProvince regencies.toList).get p.ID) "" "  ")) ∨
    (∃ r ∈ regencies.toList, d = (Join ["static", "api", "districts", r.ID ++ ".json"],
      MarshalIndent ((districtsByRegency districts.toList).get r.ID) "" "  ")) ∨
    (∃ x ∈ districts.toList, d = (Join ["static", "api", "villages", x.ID ++ ".json"],
      MarshalIndent ((villagesByDistrict villages.toList).get x.ID) "" "  ")) := by
  simp only [documents, List.mem_cons, List.mem_append, List.mem_map] at h
  rcases h with h | (⟨p, hp, e⟩ | ⟨r, hr, e⟩) | ⟨x, hx, e⟩
  · exact Or.inl h
  · exact Or.inr (Or.inl ⟨p, hp, e.symm⟩)
  · exact Or.inr (Or.inr (Or.inl ⟨r, hr, e.symm⟩))
  · exact Or.inr (Or.inr (Or.inr ⟨x, hx, e.symm⟩))

theorem forall₂_map_right {α β : Type} (R : α → β → Prop) (f : α → β) (l : List α)
    (h : ∀ x ∈ l, R x (f x)) : List.Forall₂ R l (l.map f) := by
  induction l with
  | nil => exact List.Forall₂.nil
  | cons x rest ih =>
    exact List.Forall₂.cons (h x (List.mem_cons_self _ _))
      (ih (fun y hy => h y (List.mem_cons_of_mem _ hy)))

/-- The paths of the documents of a run whose identifiers have no `/`. -/
theorem mem_documents_path (provinces : Slice Province) (regencies : Slice Regency)
    (districts : Slice District) (villages : Slice Village)
    (hP : ∀ p ∈ provinces.toList, '/' ∉ p.ID.data)
    (hR : ∀ r ∈ regencies.toList, '/' ∉ r.ID.data)
    (hD : ∀ x ∈ districts.toList, '/' ∉ x.ID.data) (d : String × String)
    (h : d ∈ documents provinces regencies districts villages) :
    d = ("static/api/provinces.json", MarshalIndent provinces "" "  ") ∨
    (∃ p ∈ provinces.toList, d = (listingPath "regencies" p.ID,
      MarshalIndent ((regenciesByProvince regencies.toList).get p.ID) "" "  ")) ∨
    (∃ r ∈ regencies.toList, d = (listingPath "districts" r.ID,
      MarshalIndent ((districtsByRegency districts.toList).get r.ID) "" "  ")) ∨
    (∃ x ∈ districts.toList, d = (listingPath "villages" x.ID,
      MarshalIndent ((villagesByDistrict villages.toList).get x.ID) "" "  ")) := by
  rcases mem_documents provinces regencies districts villages d h with
    h | ⟨p, hp, h⟩ | ⟨r, hr, h⟩ | ⟨x, hx, h⟩
  · exact Or.inl (by rw [h, Join_provinces])
  · exact Or.inr (Or.inl ⟨p, hp, by rw [h, Join_regencies _ (hP p hp)]⟩)
  · exact Or.inr (Or.inr (Or.inl ⟨r, hr, by rw [h, Join_districts _ (hR r hr)]⟩))
  · exact Or.inr (Or.inr (Or.inr ⟨x, hx, by rw [h, Join_villages _ (hD x hx)]⟩))

/-- The files a run leaves at the paths of its documents, when the
identifiers have no `/`. -/
theorem documents_files (provinces : Slice Province) (regencies : Slice Regency)
    (districts : Slice District) (villages : Slice Village) (fs : FS)
    (hP : ∀ p ∈ provinces.toList, '/' ∉ p.ID.data)
    (hR : ∀ r ∈ regencies.toList, '/' ∉ r.ID.data)
    (hD : ∀ x ∈ districts.toList, '/' ∉ x.ID.data) :
    writeAll (documents provinces regencies districts villages) fs "static/api/provinces.json"
      = some (MarshalIndent provinces "" "  ") ∧
    (∀ p ∈ provinces.toList,
      writeAll (documents provinces regencies districts villages) fs
          (listingPath "regencies" p.ID)
        = some (MarshalIndent ((regenciesByProvince regencies.toList).get p.ID) "" "  ")) ∧
    (∀ r ∈ regencies.toList,
      writeAll (documents provinces regencies districts villages) fs
          (listingPath "districts" r.ID)
        = some (MarshalIndent ((districtsByRegency districts.toList).get r.ID) "" "  ")) ∧
    (∀ x ∈ districts.toList,
      writeAll (documents provinces regencies districts villages) fs
          (listingPath "villages" x.ID)
        = some (MarshalIndent ((villagesByDistrict villages.toList).get x.ID) "" "  ")) := by
  have hmem := mem_documents_path provinces regencies districts villages hP hR hD
  refine ⟨?_, fun p hp => ?_, fun r hr => ?_, fun x hx => ?_⟩
  · apply writeAll_lookup
    · exact ⟨(Join ["static", "api", "provinces.json"], MarshalIndent provinces "" "  "),
        by simp [documents], Join_provinces⟩
    · intro d hd e
      rcases hmem d hd with h | ⟨p, _, h⟩ | ⟨r, _, h⟩ | ⟨x, _, h⟩
      · rw [h]
      · rw [h] at e
        exact absurd e.symm (provincesPath_ne_regencies _)
      · rw [h] at e
        exact absurd e.symm (provincesPath_ne_districts _)
      · rw [h] at e
        exact absurd e.symm (provincesPath_ne_villages _)
  · apply writeAll_lookup
    · refine ⟨(Join ["static", "api", "regencies", p.ID ++ ".json"],
        MarshalIndent ((regenciesByProvince regencies.toList).get p.ID) "" "  "), ?_,
        Join_regencies _ (hP p hp)⟩
      simp only [documents, List.mem_cons, List.mem_append, List.mem_map]
      exact Or.inr (Or.inl (Or.inl ⟨p, hp, rfl⟩))
    · intro d hd e
      rcases hmem d hd with h | ⟨p2, _, h⟩ | ⟨r, _, h⟩ | ⟨x, _, h⟩
      · rw [h] at e
        exact absurd e (provincesPath_ne_regencies _)
      · rw [h] at e ⊢
        rw [listingPath_inj _ _ _ e]
      · rw [h] at e
        exact absurd e.symm (listingPath_regencies_ne_districts _ _)
      · rw [h] at e
        exact absurd e.symm (listingPath_regencies_ne_villages _ _)
  · apply writeAll_lookup
    · refine ⟨(Join ["static", "api", "districts", r.ID ++ ".json"],
        MarshalIndent ((districtsByRegency districts.toList).get r.ID) "" "  "), ?_,
        Join_districts _ (hR r hr)⟩
      simp only [documents, List.mem_cons, List.mem_append, List.mem_map]
      exact Or.inr (Or.inl (Or.inr ⟨r, hr, rfl⟩))
    · intro d hd e
      rcases hmem d hd with h | ⟨p, _, h⟩ | ⟨r2, _, h⟩ | ⟨x, _, h⟩
      · rw [h] at e
        exact absurd e (provincesPath_ne_districts _)
      · rw [h] at e
        exact absurd e (listingPath_regencies_ne_districts _ _)
      · rw [h] at e ⊢
        rw [listingPath_inj _ _ _ e]
      · rw [h] at e
        exact absurd e.symm (listingPath_districts_ne_villages _ _)
  · apply writeAll_lookup
    · refine ⟨(Join ["static", "api", "villages", x.ID ++ ".json"],
        MarshalIndent ((villagesByDistrict villages.toList).get x.ID) "" "  "), ?_,
        Join_villages _ (hD x hx)⟩
      simp only [documents, List.mem_cons, List.mem_append, List.mem_map]
      exact Or.inr (Or.inr ⟨x, hx, rfl⟩)
    · intro d hd e
      rcases hmem d hd with h | ⟨p, _, h⟩ | ⟨r, _, h⟩ | ⟨x2, _, h⟩
      · rw [h] at e
        exact absurd e (provincesPath_ne_villages _)
      · rw [h] at e
        exact absurd e (listingPath_regencies_ne_villages _ _)
      · rw [h] at e
        exact absurd e (listingPath_districts_ne_villages _ _)
      · rw [h] at e ⊢
        rw [listingPath_inj _ _ _ e]

/-- C3 as amended: when the four files parse, every write succeeds and no
identifier has a `/`, `main` succeeds and writes exactly these documents, in
this order: `static/api/provinces.json`, then `static/api/regencies/<p.id>.json`
for every province `p`, `static/api/districts/<r.id>.json` for every regency
`r` and `static/api/villages/<d.id>.json` for every district `d`, in parse
order. Each document written for a non-empty sequence is a JSON array holding
exactly that sequence in parse order: all provinces, or the children whose
parent reference is the parent's id. The files at these paths after the run
are these documents. A child whose parent reference matches no parent appears
in no document written. -/
theorem main_writes_listings (env : Env) (fs : FS) (provinces : Slice Province)
    (regencies : Slice Regency) (districts : Slice District) (villages : Slice Village)
    (hp : readProvinces env.provinces = .ok provinces)
    (hr : readRegencies env.regencies = .ok regencies)
    (hd : readDistricts env.districts = .ok districts)
    (hv : readVillages env.villages = .ok villages)
    (hw : ∀ f path bytes, env.osWriteFile f path bytes = .ok)
    (hP : ∀ p ∈ provinces.toList, '/' ∉ p.ID.data)
    (hR : ∀ r ∈ regencies.toList, '/' ∉ r.ID.data)
    (hD : ∀ x ∈ districts.toList, '/' ∉ x.ID.data) :
    (main env fs).exit = .success ∧
    (∃ d0 ds1 ds2 ds3, (main env fs).world.written = d0 :: (ds1 ++ ds2 ++ ds3) ∧
      (d0.1 = "static/api/provinces.json" ∧
        (provinces.toList ≠ [] → IsListingOf d0.2 provinces.toList)) ∧
      List.Forall₂ (fun (p : Province) (d : String × String) =>
          d.1 = listingPath "regencies" p.ID ∧
          (regenciesOf regencies.toList p.ID ≠ [] →
            IsListingOf d.2 (regenciesOf regencies.toList p.ID)))
        provinces.toList ds1 ∧
      List.Forall₂ (fun (r : Regency) (d : String × String) =>
          d.1 = listingPath "districts" r.ID ∧
          (districtsOf districts.toList r.ID ≠ [] →
            IsListingOf d.2 (districtsOf districts.toList r.ID)))
        regencies.toList ds2 ∧
      List.Forall₂ (fun (x : District) (d : String × String) =>
          d.1 = listingPath "villages" x.ID ∧
          (villagesOf villages.toList x.ID ≠ [] →
            IsListingOf d.2 (villagesOf villages.toList x.ID)))
        districts.toList ds3) ∧
    ((∃ bytes, (main env fs).world.files "static/api/provinces.json" = some bytes ∧
        (provinces.toList ≠ [] → IsListingOf bytes provinces.toList)) ∧
      (∀ p ∈ provinces.toList, ∃ bytes,
        (main env fs).world.files (listingPath "regencies" p.ID) = some bytes ∧
        (regenciesOf regencies.toList p.ID ≠ [] →
          IsListingOf bytes (regenciesOf regencies.toList p.ID))) ∧
      (∀ r ∈ regencies.toList, ∃ bytes,
        (main env fs).world.files (listingPath "districts" r.ID) = some bytes ∧
        (districtsOf districts.toList r.ID ≠ [] →
          IsListingOf bytes (districtsOf districts.toList r.ID))) ∧
      (∀ x ∈ districts.toList, ∃ bytes,
        (main env fs).world.files (listingPath "villages" x.ID) = some bytes ∧
        (villagesOf villages.toList x.ID ≠ [] →
          IsListingOf bytes (villagesOf villages.toList x.ID)))) ∧
    ((∀ r ∈ regencies.toList, (∀ p ∈ provinces.toList, p.ID ≠ r.ProvinceID) →
        ∀ d ∈ (main env fs).world.written, ¬ Mentions d.2 (JSONStruct.jsonFields r)) ∧
      (∀ x ∈ districts.toList, (∀ r ∈ regencies.toList, r.ID ≠ x.RegencyID) →
        ∀ d ∈ (main env fs).world.written, ¬ Mentions d.2 (JSONStruct.jsonFields x)) ∧
      (∀ v ∈ villages.toList, (∀ x ∈ districts.toList, x.ID ≠ v.DistrictID) →
        ∀ d ∈ (main env fs).world.written, ¬ Mentions d.2 (JSONStruct.jsonFields v))) := by
  obtain ⟨hexit, hwritten, hfiles⟩ :=
    main_ok env fs provinces regencies districts villages hp hr hd hv hw
  obtain ⟨f0, f1, f2, f3⟩ := documents_files provinces regencies districts villages fs hP hR hD
  have cR : ∀ id, regenciesOf regencies.toList id ≠ [] →
      IsListingOf (MarshalIndent ((regenciesByProvince regencies.toList).get id) "" "  ")
        (regenciesOf regencies.toList id) := fun id hne =>
    isListingOf_marshal _ _ (regenciesByProvince_get regencies.toList id) hne
  have cD : ∀ id, districtsOf districts.toList id ≠ [] →
      IsListingOf (MarshalIndent ((districtsByRegency districts.toList).get id) "" "  ")
        (districtsOf districts.toList id) := fun id hne =>
    isListingOf_marshal _ _ (districtsByRegency_get districts.toList id) hne
  have cV : ∀ id, villagesOf villages.toList id ≠ [] →
      IsListingOf (MarshalIndent ((villagesByDistrict villages.toList).get id) "" "  ")
        (villagesOf villages.toList id) := fun id hne =>
    isListingOf_marshal _ _ (villagesByDistrict_get villages.toList id) hne
  have cP : provinces.toList ≠ [] →
      IsListingOf (MarshalIndent provinces "" "  ") provinces.toList := fun hne =>
    isListingOf_marshal _ _ rfl hne
  refine ⟨hexit, ⟨_, _, _, _, hwritten, ⟨Join_provinces, cP⟩, ?_, ?_, ?_⟩,
    ⟨?_, ?_, ?_, ?_⟩, ⟨?_, ?_, ?_⟩⟩
  · exact forall₂_map_right _ _ _ (fun p hp2 => ⟨Join_regencies _ (hP p hp2), cR p.ID⟩)
  · exact forall₂_map_right _ _ _ (fun r hr2 => ⟨Join_districts _ (hR r hr2), cD r.ID⟩)
  · exact forall₂_map_right _ _ _ (fun x hx2 => ⟨Join_villages _ (hD x hx2), cV x.ID⟩)
  · exact ⟨_, by rw [hfiles, f0], cP⟩
  · exact fun p hp2 => ⟨_, by rw [hfiles, f1 p hp2], cR p.ID⟩
  · exact fun r hr2 => ⟨_, by rw [hfiles, f2 r hr2], cD r.ID⟩
  · exact fun x hx2 => ⟨_, by rw [hfiles, f3 x hx2], cV x.ID⟩
  · intro r _ hno d hdoc
    rw [hwritten] at hdoc
    rcases mem_documents provinces regencies districts villages d hdoc with
      h | ⟨p, hp2, h⟩ | ⟨r2, _, h⟩ | ⟨x, _, h⟩
    · rw [h]
      exact not_mentions_marshal _ _ (fun y _ => jsonFields_province_ne_regency y r)
    · rw [h]
      refine not_mentions_marshal _ _ (fun y hy e => ?_)
      rw [regenciesByProvince_get] at hy
      have hy2 : y.ProvinceID = p.ID := by simpa using (List.mem_filter.mp hy).2
      rw [jsonFields_regency_inj y r e] at hy2
      exact hno p hp2 hy2.symm
    · rw [h]
      exact not_mentions_marshal _ _ (fun y _ => (jsonFields_regency_ne_district r y).symm)
    · rw [h]
      exact not_mentions_marshal _ _ (fun y _ => (jsonFields_regency_ne_village r y).symm)
  · intro x _ hno d hdoc
    rw [hwritten] at hdoc
    rcases mem_documents provinces regencies districts villages d hdoc with
      h | ⟨p, _, h⟩ | ⟨r, hr2, h⟩ | ⟨x2, _, h⟩
    · rw [h]
      exact not_mentions_marshal _ _ (fun y _ => jsonFields_province_ne_district y x)
    · rw [h]
      exact not_mentions_marshal _ _ (fun y _ => jsonFields_regency_ne_district y x)
    · rw [h]
      refine not_mentions_marshal _ _ (fun y hy e => ?_)
      rw [districtsByRegency_get] at hy
      have hy2 : y.RegencyID = r.ID := by simpa using (List.mem_filter.mp hy).2
      rw [jsonFields_district_inj y x e] at hy2
      exact hno r hr2 hy2.symm
    · rw [h]
      exact not_mentions_marshal _ _ (fun y _ => (jsonFields_district_ne_village x y).symm)
  · intro v _ hno d hdoc
    rw [hwritten] at hdoc
    rcases mem_documents provinces regencies districts villages d hdoc with
      h | ⟨p, _, h⟩ | ⟨r, _, h⟩ | ⟨x, hx2, h⟩
    · rw [h]
      exact not_mentions_marshal _ _ (fun y _ => jsonFields_province_ne_village y v)
    · rw [h]
      exact not_mentions_marshal _ _ (fun y _ => jsonFields_regency_ne_village y v)
    · rw [h]
      exact not_mentions_marshal _ _ (fun y _ => jsonFields_district_ne_village y v)
    · rw [h]
      refine not_mentions_marshal _ _ (fun y hy e => ?_)
      rw [villagesByDistrict_get] at hy
      have hy2 : y.DistrictID = x.ID := by simpa using (List.mem_filter.mp hy).2
      rw [jsonFields_village_inj y v e] at hy2
      exact hno x hx2 hy2.symm

/-- C3 as amended, at the end-to-end scenario: the run succeeds, writes the
four documents at their literal paths, and the file of province 11 is the
JSON array of its one regency. -/
theorem main_writes_listings_witness :
    (readProvinces scenario.provinces = .ok (.elems [⟨"11", "Aceh"⟩, ⟨"12", "Sumatera Utara"⟩]) ∧
      readRegencies scenario.regencies = .ok (.elems [⟨"1101", "11", "Simeulue"⟩]) ∧
      readDistricts scenario.districts = .ok .nil ∧
      readVillages scenario.villages = .ok .nil ∧
      ∀ f path bytes, scenario.osWriteFile f path bytes = .ok) ∧
    (main scenario emptyFS).exit = .success ∧
    (main scenario emptyFS).world.written.map Prod.fst =
      ["static/api/provinces.json", "static/api/regencies/11.json",
        "static/api/regencies/12.json", "static/api/districts/1101.json"] ∧
    regenciesOf [⟨"1101", "11", "Simeulue"⟩] "11" = [⟨"1101", "11", "Simeulue"⟩] ∧
    ∃ bytes, (main scenario emptyFS).world.files (listingPath "regencies" "11") = some bytes ∧
      (regenciesOf (Slice.elems [Regency.mk "1101" "11" "Simeulue"]).toList
          (Province.mk "11" "Aceh").ID ≠ [] →
        IsListingOf bytes (regenciesOf (Slice.elems [Regency.mk "1101" "11" "Simeulue"]).toList
          (Province.mk "11" "Aceh").ID)) :=
  ⟨⟨by decide, by decide, by decide, by decide, fun _ _ _ => rfl⟩,
    (main_writes_listings scenario emptyFS
      (.elems [⟨"11", "Aceh"⟩, ⟨"12", "Sumatera Utara"⟩]) (.elems [⟨"1101", "11", "Simeulue"⟩])
      .nil .nil (by decide) (by decide) (by decide) (by decide) (fun _ _ _ => rfl)
      (by decide) (by decide) (by decide)).1,
    by decide, by decide,
    (main_writes_listings scenario emptyFS
      (.elems [⟨"11", "Aceh"⟩, ⟨"12", "Sumatera Utara"⟩]) (.elems [⟨"1101", "11", "Simeulue"⟩])
      .nil .nil (by decide) (by decide) (by decide) (by decide) (fun _ _ _ => rfl)
      (by decide) (by decide) (by decide)).2.2.1.2.1 ⟨"11", "Aceh"⟩ (by decide)⟩

/-- C3 as stated fails: with the regency identifier `../regencies/11`, whose
parse succeeds, `filepath.Join` cleans the path of that regency's districts
document to `static/api/regencies/11.json`; nothing is written at
`static/api/districts/../regencies/11.json`, and the file of province 11,
which has one regency, ends up holding the districts of that regency instead
of the regencies of the province. -/
theorem listing_overwritten_by_path_id :
    (readProvinces pathIdScenario.provinces = .ok (.elems [⟨"11", "Aceh"⟩]) ∧
      readRegencies pathIdScenario.regencies
        = .ok (.elems [⟨"../regencies/11", "11", "Simeulue"⟩]) ∧
      readDistricts pathIdScenario.districts
        = .ok (.elems [⟨"110101", "../regencies/11", "Teupah Selatan"⟩]) ∧
      readVillages pathIdScenario.villages = .ok .nil) ∧
    (main pathIdScenario emptyFS).exit = .success ∧
    (main pathIdScenario emptyFS).world.written.map Prod.fst =
      ["static/api/provinces.json", "static/api/regencies/11.json",
        "static/api/regencies/11.json", "static/api/villages/110101.json"] ∧
    (main pathIdScenario emptyFS).world.files "static/api/districts/../regencies/11.json"
      = none ∧
    regenciesOf [⟨"../regencies/11", "11", "Simeulue"⟩] "11"
      = [⟨"../regencies/11", "11", "Simeulue"⟩] ∧
    (∃ bytes, (main pathIdScenario emptyFS).world.files "static/api/regencies/11.json"
        = some bytes ∧
      decodeListing bytes
        = some [[("id", "110101"), ("regency_id", "../regencies/11"),
            ("name", "Teupah Selatan")]] ∧
      decodeListing bytes
        ≠ some [[("id", "../regencies/11"), ("province_id", "11"), ("name", "Simeulue")]]) := by
  refine ⟨by decide, by decide, by decide, by decide, by decide,
    ⟨MarshalIndent (Slice.elems [District.mk "110101" "../regencies/11" "Teupah Selatan"]) "" "  ",
      by decide, by decide, by decide⟩⟩

/-- C1 on the code: in the end-to-end scenario province 12 has no regency and
regency 1101 has no district, their identifiers are absent from the grouping
indexes, and the documents `writeJSON` writes for them are the four bytes
`null`, which is neither `[]` nor `[`, newline, `]`. -/
theorem childless_parent_document_is_null :
    (regenciesByProvince [⟨"1101", "11", "Simeulue"⟩]).hasKey "12" = false ∧
    (regenciesByProvince [⟨"1101", "11", "Simeulue"⟩]).get "12" = Slice.nil ∧
    (main scenario emptyFS).exit = .success ∧
    (main scenario emptyFS).world.files "static/api/regencies/12.json" = some "null" ∧
    (main scenario emptyFS).world.files "static/api/districts/1101.json" = some "null" ∧
    (writeJSON scenario "static/api/regencies/12.json" (Slice.nil : Slice Regency)
      ⟨emptyFS, [], []⟩).1.written = [("static/api/regencies/12.json", "null")] ∧
    MarshalIndent (Slice.elems ([] : List Regency)) "" "  " = "[]" ∧
    ("null" : String) ≠ "[]" ∧ ("null" : String) ≠ "[\n]" := by
  decide

/-- A run in which one of the four parsers fails ends with that fatal error
and has written nothing. -/
theorem main_parse_failure (env : Env) (fs : FS)
    (h : (∃ e, readProvinces env.provinces = .error e) ∨
      (∃ e, readRegencies env.regencies = .error e) ∨
      (∃ e, readDistricts env.districts = .error e) ∨
      (∃ e, readVillages env.villages = .error e)) :
    ∃ e, (main env fs).exit = .fatal e ∧ (main env fs).world.written = [] ∧
      (main env fs).world.files = fs := by
  unfold main
  cases hp : readProvinces env.provinces with
  | error e => exact ⟨e, rfl, rfl, rfl⟩
  | ok provinces =>
  cases hr : readRegencies env.regencies with
  | error e => exact ⟨e, rfl, rfl, rfl⟩
  | ok regencies =>
  cases hd : readDistricts env.districts with
  | error e => exact ⟨e, rfl, rfl, rfl⟩
  | ok districts =>
  cases hv : readVillages env.villages with
  | error e => exact ⟨e, rfl, rfl, rfl⟩
  | ok villages =>
    rw [hp, hr, hd, hv] at h
    simp at h

/-- C5: when `districts.csv` has a data row with fewer than three columns the
run ends with a fatal error, has written no document and leaves every file as
it was; and so does every run in which one of the four parsers fails. -/
theorem short_row_is_fatal (env : Env) (fs : FS) :
    ((∃ input raw, env.districts = some input ∧ raw ∈ input.tail ∧ raw.fields.length < 3) →
      ∃ e, (main env fs).exit = .fatal e ∧ (main env fs).world.written = [] ∧
        (main env fs).world.files = fs) ∧
    (((∃ e, readProvinces env.provinces = .error e) ∨
        (∃ e, readRegencies env.regencies = .error e) ∨
        (∃ e, readDistricts env.districts = .error e) ∨
        (∃ e, readVillages env.villages = .error e)) →
      ∃ e, (main env fs).exit = .fatal e ∧ (main env fs).world.written = [] ∧
        (main env fs).world.files = fs) := by
  refine ⟨?_, main_parse_failure env fs⟩
  rintro ⟨input, raw, hin, hraw, hlen⟩
  apply main_parse_failure
  right; right; left
  rw [hin, readDistricts_eq]
  exact readCsv_fails _ _ input ⟨raw, hraw, fun x => buildThree_short _ _ hlen x⟩

/-- C5 at the scenario with the two-column data row (110101, 1101) in
`districts.csv` under a three-column header: the reader rejects the row, the
run is fatal and no document is written. Under a two-column header the same
row passes the reader and the loop body fails with an index out of range. -/
theorem short_row_is_fatal_witness :
    (∃ input raw, shortRowScenario.districts = some input ∧ raw ∈ input.tail ∧
      raw.fields.length < 3) ∧
    readDistricts shortRowScenario.districts = .error (.recordFailed "districts" .ErrFieldCount) ∧
    readDistricts (some [.row ["id", "regency_id"], .row ["110101", "1101"]])
      = .error (.indexOutOfRange 2 2) ∧
    ∃ e, (main shortRowScenario emptyFS).exit = .fatal e ∧
      (main shortRowScenario emptyFS).world.written = [] ∧
      (main shortRowScenario emptyFS).world.files = emptyFS :=
  ⟨⟨_, RawRecord.row ["110101", "1101"], rfl, by decide, by decide⟩, by decide, by decide,
    (short_row_is_fatal shortRowScenario emptyFS).1
      ⟨_, RawRecord.row ["110101", "1101"], rfl, by decide, by decide⟩⟩

/-- C9: two successful runs on the same four input files write the same
documents, path by path and byte by byte, whatever files were there before
(and whatever the write conditions were otherwise); the files after a
successful run are the files before it overwritten by its writes; and a
successful run on the files left by a successful run leaves these same files. -/
theorem rerun_same_output (env env2 : Env) (fs fs2 : FS)
    (hsame : env2.provinces = env.provinces ∧ env2.regencies = env.regencies ∧
      env2.districts = env.districts ∧ env2.villages = env.villages)
    (h1 : (main env fs).exit = .success) :
    (main env fs).world.files = writeAll (main env fs).world.written fs ∧
    ((main env2 fs2).exit = .success →
      (main env2 fs2).world.written = (main env fs).world.written) ∧
    ((main env2 (main env fs).world.files).exit = .success →
      (main env2 (main env fs).world.files).world.written = (main env fs).world.written ∧
      (main env2 (main env fs).world.files).world.files = (main env fs).world.files) := by
  obtain ⟨p, r, d, v, hp, hr, hd, hv, hwr, hfi⟩ := main_success env fs h1
  have key : ∀ fs3, (main env2 fs3).exit = .success →
      (main env2 fs3).world.written = documents p r d v ∧
      (main env2 fs3).world.files = writeAll (documents p r d v) fs3 := by
    intro fs3 h3
    obtain ⟨p2, r2, d2, v2, hp2, hr2, hd2, hv2, hwr2, hfi2⟩ := main_success env2 fs3 h3
    rw [hsame.1, hp] at hp2
    rw [hsame.2.1, hr] at hr2
    rw [hsame.2.2.1, hd] at hd2
    rw [hsame.2.2.2, hv] at hv2
    cases hp2
    cases hr2
    cases hd2
    cases hv2
    exact ⟨hwr2, hfi2⟩
  refine ⟨by rw [hfi, hwr], fun h2 => ?_, fun h2 => ?_⟩
  · rw [(key fs2 h2).1, hwr]
  · obtain ⟨k1, k2⟩ := key _ h2
    refine ⟨by rw [k1, hwr], ?_⟩
    rw [k2, hfi, writeAll_idem]

/-- C9 at the end-to-end scenario, started on the empty file system. -/
theorem rerun_same_output_witness :
    (main scenario emptyFS).exit = .success ∧
    (main scenario (main scenario emptyFS).world.files).exit = .success ∧
    (main scenario (main scenario emptyFS).world.files).world.written
      = (main scenario emptyFS).world.written ∧
    (main scenario (main scenario emptyFS).world.files).world.files
      = (main scenario emptyFS).world.files :=
  ⟨by decide, by decide,
    (rerun_same_output scenario scenario emptyFS emptyFS ⟨rfl, rfl, rfl, rfl⟩ (by decide)).2.2
      (by decide)⟩

/-- C2 at the regencies (1101, 11), (1201, 12), (1102, 11): the group of
province 11 holds its two regencies in input order. -/
theorem grouping_is_filter_witness :
    ((regenciesByProvince [⟨"1101", "11", "Simeulue"⟩, ⟨"1201", "12", "Nias"⟩,
        ⟨"1102", "11", "Aceh Singkil"⟩]).get "11").toList
      = [⟨"1101", "11", "Simeulue"⟩, ⟨"1102", "11", "Aceh Singkil"⟩] ∧
    ((regenciesByProvince [⟨"1101", "11", "Simeulue"⟩, ⟨"1201", "12", "Nias"⟩,
        ⟨"1102", "11", "Aceh Singkil"⟩]).get "11").toList.count ⟨"1101", "11", "Simeulue"⟩
      = List.count (Regency.mk "1101" "11" "Simeulue") [⟨"1101", "11", "Simeulue"⟩,
        ⟨"1201", "12", "Nias"⟩, ⟨"1102", "11", "Aceh Singkil"⟩] :=
  ⟨by decide, (grouping_is_filter.1 _ "11").2.1 ⟨"1101", "11", "Simeulue"⟩ rfl⟩

/-- C10 at the regency (1101, 11, Simeulue): 11 is a key of the index, 12 is
not. -/
theorem index_key_iff_child_witness :
    (regenciesByProvince [⟨"1101", "11", "Simeulue"⟩]).hasKey "11" = true ∧
    (regenciesByProvince [⟨"1101", "11", "Simeulue"⟩]).hasKey "12" = false ∧
    ∃ r ∈ [Regency.mk "1101" "11" "Simeulue"], r.ProvinceID = "11" :=
  ⟨by decide, by decide, ((index_key_iff_child.1 _ "11").1).mp (by decide)⟩

end Wilayah
